import Mathlib

/-!
Verification of dbvault: a shallow embedding of the session manager and the
vault client.

The Go sources embedded here are `cmd/bitwarden/bwsession.go`,
`cmd/vault/vault.go` and the template expansion of `root` in `main.go`.

Conventions of the embedding:
* a Go `(value, error)` result is an `Except String value`; the string is the
  error message;
* everything outside the repository (the `bw` subprocesses, the file system,
  the HTTP transport, `encoding/json`) is a field of an environment record, so
  every theorem quantifies over all behaviours of the outside world;
* every function that acts on the outside world also returns the list of the
  actions it performed, in order.
-/

namespace DBVault

/-! ## Go values and the `strings` package -/

/-- Dynamic value held by a Go `any` after `json.Unmarshal`. -/
inductive AnyValue where
  | null
  | bool (b : Bool)
  | number (literal : String)
  | string (s : String)
  | array (items : List AnyValue)
  | object (fields : List (String × AnyValue))

/-- Go `map[string]any`: a finite map read by key (`m[k]` is `m k`). -/
abbrev AnyMap := String → Option AnyValue

/-- Type assertion `v.(string)` on the result of a map read. -/
def assertString : Option AnyValue → Option String
  | some (AnyValue.string s) => some s
  | _ => none

/-- Code points for which Go's `unicode.IsSpace` holds. -/
def isSpace (c : Char) : Bool :=
  (9 ≤ c.toNat && c.toNat ≤ 13) || c.toNat = 32 ||
  c.toNat = 0x85 || c.toNat = 0xA0 || c.toNat = 0x1680 ||
  (0x2000 ≤ c.toNat && c.toNat ≤ 0x200A) ||
  c.toNat = 0x2028 || c.toNat = 0x2029 || c.toNat = 0x202F || c.toNat = 0x205F ||
  c.toNat = 0x3000

/-- Go `strings.TrimSpace`. -/
def TrimSpace (s : String) : String :=
  ⟨((s.data.dropWhile isSpace).reverse.dropWhile isSpace).reverse⟩

/-- Go `strings.HasPrefix`. -/
def HasPrefix (s pre : String) : Bool :=
  pre.data.isPrefixOf s.data

/-- Go `strings.TrimPrefix`. -/
def TrimPrefix (s pre : String) : String :=
  if HasPrefix s pre then ⟨s.data.drop pre.data.length⟩ else s

/-- Substring test behind Go `strings.Contains`: `sub` occurs in `s`. -/
def Contains (s sub : String) : Prop :=
  sub.data <:+: s.data

instance (s sub : String) : Decidable (Contains s sub) :=
  inferInstanceAs (Decidable (sub.data <:+: s.data))

/-! ## cmd/bitwarden/bwsession.go -/

/-- Failure of `os.ReadFile`; `notExist` is the case `os.IsNotExist` recognises. -/
inductive ReadError where
  | notExist
  | other (msg : String)

/-- The outside world of the session manager: the home directory, the file
system calls, the three `bw` subprocesses and `json.Unmarshal` into a
`map[string]any`. A Go `error` result is `none` for `nil`. -/
structure BWEnv where
  userHomeDir : Except String String
  join : String → String → String
  mkdirAll : String → Option String
  readFile : String → Except ReadError String
  writeFile : String → String → Option String
  bwStatus : Option String → Except String String
  bwLogin : Option String
  bwUnlock : Except String String
  unmarshal : String → Except String AnyMap

/-- Actions the session manager performs on the outside world. `run argv s` is
a subprocess started with `BW_SESSION=s` added to the environment when `s` is
`some`. -/
inductive BWAction where
  | readFile (path : String)
  | mkdirAll (path : String) (perm : Nat)
  | writeFile (path content : String) (perm : Nat)
  | run (argv : List String) (session : Option String)
  | stdout (text : String)
  | stderr (text : String)
  deriving DecidableEq, Repr

/-- The action is the `bw login` subprocess. -/
def BWAction.isLogin : BWAction → Bool
  | .run argv _ => argv == ["bw", "login"]
  | _ => false

/-- The action is the `bw unlock --raw` subprocess. -/
def BWAction.isUnlock : BWAction → Bool
  | .run argv _ => argv == ["bw", "unlock", "--raw"]
  | _ => false

/-- The action belongs to writing the session cache. -/
def BWAction.isCacheWrite : BWAction → Bool
  | .mkdirAll _ _ => true
  | .writeFile _ _ _ => true
  | _ => false

/-- Go `getCacheDir`. -/
def getCacheDir (env : BWEnv) : Except String String :=
  match env.userHomeDir with
  | .error e => .error e
  | .ok homeDir => .ok (env.join homeDir ".cache")

/-- Content `writeBWSession` puts in the cache file. -/
def sessionFileContent (token : String) : String :=
  "BW_SESSION=" ++ token ++ "\n"

/-- Go `writeBWSession`: the returned error and the actions performed. -/
def writeBWSession (env : BWEnv) (token : String) : Option String × List BWAction :=
  match getCacheDir env with
  | .error e => (some e, [])
  | .ok cacheDir =>
    match env.mkdirAll cacheDir with
    | some e => (some e, [.mkdirAll cacheDir 0o700])
    | none =>
      let sessionFile := env.join cacheDir ".bw_session"
      let content := sessionFileContent token
      (env.writeFile sessionFile content,
        [.mkdirAll cacheDir 0o700, .writeFile sessionFile content 0o600])

/-- What `readBWSession` makes of the bytes of the cache file. -/
def parseSession (data : String) : String :=
  let content := TrimSpace data
  let pre := "BW_SESSION="
  if HasPrefix content pre then TrimSpace (TrimPrefix content pre) else content

/-- Go `readBWSession`. -/
def readBWSession (env : BWEnv) : Except String String × List BWAction :=
  match getCacheDir env with
  | .error e => (.error e, [])
  | .ok cacheDir =>
    let sessionFile := env.join cacheDir ".bw_session"
    match env.readFile sessionFile with
    | .error .notExist => (.ok "", [.readFile sessionFile])
    | .error (.other e) => (.error e, [.readFile sessionFile])
    | .ok data => (.ok (parseSession data), [.readFile sessionFile])

/-- Go `unlockRaw`. -/
def unlockRaw (env : BWEnv) : Except String String × List BWAction :=
  match env.bwUnlock with
  | .error e => (.error e, [.run ["bw", "unlock", "--raw"] none])
  | .ok sessionToken => (.ok (TrimSpace sessionToken), [.run ["bw", "unlock", "--raw"] none])

/-- The `cachedToken, _ := readBWSession()` of `GetSessionOrLogin`: every
failing return of `readBWSession` carries the empty string. -/
def cachedToken (env : BWEnv) : String :=
  match (readBWSession env).1 with
  | .ok t => t
  | .error _ => ""

/-- The `BW_SESSION` given to `bw status`: set only for a non-empty token. -/
def statusSession (env : BWEnv) : Option String :=
  if cachedToken env ≠ "" then some (cachedToken env) else none

/-- Go `GetSessionOrLogin`: the `(string, error)` result and the actions
performed, in order. -/
def GetSessionOrLogin (env : BWEnv) : Except String String × List BWAction :=
  let log0 := (readBWSession env).2 ++ [.run ["bw", "status"] (statusSession env)]
  match env.bwStatus (statusSession env) with
  | .error e => (.error e, log0)
  | .ok output =>
    match env.unmarshal output with
    | .error e => (.error ("error Unmarshalling JSON: " ++ e), log0)
    | .ok data =>
      match assertString (data "status") with
      | some status =>
        let log1 := log0 ++ [.stdout ("Status:  " ++ status ++ "\n")]
        if status = "unauthenticated" then
          let log2 := log1 ++ [.run ["bw", "login"] none]
          match env.bwLogin with
          | some e => (.error e, log2)
          | none =>
            match unlockRaw env with
            | (.error e, ul) => (.error ("error unmarshalling JSON: " ++ e), log2 ++ ul)
            | (.ok sessionToken, ul) =>
              match writeBWSession env sessionToken with
              | (some e, wl) => (.error ("unlock after login failed: " ++ e), log2 ++ ul ++ wl)
              | (none, wl) => (.ok sessionToken, log2 ++ ul ++ wl)
        else if status = "locked" then
          let log2 := log1 ++ [.stdout "Bitwarden locked, unlocking...\n"]
          match unlockRaw env with
          | (.error e, ul) => (.error ("unlock failed: " ++ e), log2 ++ ul)
          | (.ok sessionToken, ul) =>
            match writeBWSession env sessionToken with
            | (some e, wl) =>
              (.ok sessionToken,
                log2 ++ ul ++ wl ++ [.stderr ("Warning: failed to cache session: " ++ e ++ "\n")])
            | (none, wl) => (.ok sessionToken, log2 ++ ul ++ wl)
        else if status = "unlocked" then
          if cachedToken env ≠ "" then (.ok (cachedToken env), log1)
          else (.error "vault unlocked but no session token found", log1)
        else (.error "unknown bitwarden status: %!w(<nil>)", log1)
      | none => (.ok "", log0)

/-! ### Concrete worlds used to run the session manager -/

/-- Status map with a string `status` field. -/
def statusMap (status : String) : AnyMap :=
  fun k => if k = "status" then some (AnyValue.string status) else none

/-- A world whose cache file holds the token `abc`, whose vault reports
`status`, where login succeeds, unlock prints `tok` and the cache directory
cannot be created. -/
def demoEnv (status : String) : BWEnv where
  userHomeDir := .ok "/home/u"
  join := fun a b => a ++ "/" ++ b
  mkdirAll := fun _ => some "read-only file system"
  readFile := fun _ => .ok "BW_SESSION=abc\n"
  writeFile := fun _ _ => none
  bwStatus := fun _ => .ok ("\x7b\"status\":\"" ++ status ++ "\"\x7d")
  bwLogin := none
  bwUnlock := .ok "tok\n"
  unmarshal := fun _ => .ok (statusMap status)

/-- A world with no cache file whose `bw status` prints a JSON object without a
status field (decoded as the empty map). -/
def noStatusEnv : BWEnv where
  userHomeDir := .ok "/home/u"
  join := fun a b => a ++ "/" ++ b
  mkdirAll := fun _ => none
  readFile := fun _ => .error .notExist
  writeFile := fun _ _ => none
  bwStatus := fun _ => .ok "\x7b\x7d"
  bwLogin := none
  bwUnlock := .ok "tok\n"
  unmarshal := fun _ => .ok (fun _ => none)

/-- A world in which unlock prints the token `tok` with white space around
it, the cache directory can be created, and the cache file holds what
`writeBWSession` writes for that token. -/
def roundTripEnv : BWEnv where
  userHomeDir := .ok "/home/u"
  join := fun a b => a ++ "/" ++ b
  mkdirAll := fun _ => none
  readFile := fun path =>
    if path = "/home/u/.cache/.bw_session" then .ok "BW_SESSION=tok\n" else .error .notExist
  writeFile := fun _ _ => none
  bwStatus := fun _ => .ok "\x7b\"status\":\"locked\"\x7d"
  bwLogin := none
  bwUnlock := .ok "  tok \n"
  unmarshal := fun _ => .ok (statusMap "locked")

/-! ## More of the `strings` package: `Replace` and the generic `Replacer` -/

/-- Go `strings.Index` on the code points of a string: the position of the
first occurrence of `substr`, `none` for Go's `-1`. -/
def indexChars (substr : List Char) : List Char → Option Nat
  | [] => if substr.isPrefixOf [] then some 0 else none
  | c :: cs =>
    if substr.isPrefixOf (c :: cs) then some 0
    else (indexChars substr cs).map (· + 1)

/-- The loop of `strings.Replace` for an empty `old`: `new` is inserted at the
start and after each code point, `n` times at most. -/
def replaceEmptyOld (new : List Char) : Nat → List Char → List Char
  | 0, s => s
  | _ + 1, [] => new
  | n + 1, c :: cs => new ++ c :: replaceEmptyOld new n cs

/-- The loop of `strings.Replace` for a non-empty `old`: each round copies the
text up to the next occurrence, writes `new` and continues after the
occurrence; it stops after `n` rounds or when no occurrence is left. -/
def replaceLoop (old new : List Char) : Nat → List Char → List Char
  | 0, s => s
  | n + 1, s =>
    match indexChars old s with
    | none => s
    | some j => s.take j ++ new ++ replaceLoop old new n (s.drop (j + old.length))

/-- Go `strings.Replace(s, old, new, n)`; a negative `n` sets no limit. -/
def Replace (s old new : String) (n : Int) : String :=
  if old = new ∨ n = 0 then s
  else
    let rounds := if n < 0 then s.length + 1 else n.toNat
    if old.data = [] then ⟨replaceEmptyOld new.data rounds s.data⟩
    else ⟨replaceLoop old.data new.data rounds s.data⟩

/-- The `lookup` of Go's generic replacer: among the old strings that start
the rest of the input, the one given first in the argument list; `ignoreRoot`
leaves the empty old string out. -/
def replacerLookup (oldnew : List (List Char × List Char)) (s : List Char)
    (ignoreRoot : Bool) : Option (List Char × List Char) :=
  oldnew.find? (fun p => !(ignoreRoot && p.1.isEmpty) && p.1.isPrefixOf s)

/-- The scan of Go's generic replacer (`genericReplacer.WriteString`).
`skip` counts the code points of the current match still to be passed over
(the `i += keylen` of the source). At a position with no match the code point
is copied; an empty match writes its value and the position is looked up once
more without the empty old string. -/
def genericReplace (oldnew : List (List Char × List Char)) :
    Nat → List Char → List Char
  | _, [] =>
    match replacerLookup oldnew [] false with
    | some p => p.2
    | none => []
  | skip + 1, _ :: cs => genericReplace oldnew skip cs
  | 0, c :: cs =>
    match replacerLookup oldnew (c :: cs) false with
    | none => c :: genericReplace oldnew 0 cs
    | some p =>
      if p.1.length = 0 then
        p.2 ++
          (match replacerLookup oldnew (c :: cs) true with
           | none => c :: genericReplace oldnew 0 cs
           | some q => q.2 ++ genericReplace oldnew (q.1.length - 1) cs)
      else p.2 ++ genericReplace oldnew (p.1.length - 1) cs

/-- Go `strings.NewReplacer(oldnew...).Replace(s)` for a replacer that Go
builds as a generic one (three pairs with old strings longer than a byte). -/
def ReplacerReplace (oldnew : List (String × String)) (s : String) : String :=
  ⟨genericReplace (oldnew.map (fun p => (p.1.data, p.2.data))) 0 s.data⟩

/-! ## main.go: the expansion of the connection URL in `root` -/

/-- The `fullURL` computed in `root`: the connection URL template with the
three placeholders replaced by the credentials and the database name. -/
def fullURL (username password name connectionURL : String) : String :=
  ReplacerReplace
    [("\x7b\x7busername\x7d\x7d", username),
     ("\x7b\x7bpassword\x7d\x7d", password),
     ("\x7b\x7bdatabase\x7d\x7d", name)]
    connectionURL

/-- The three placeholder tokens of `root`, as code points. -/
def placeholderKeys : List (List Char) :=
  [("\x7b\x7busername\x7d\x7d" : String).data,
   ("\x7b\x7bpassword\x7d\x7d" : String).data,
   ("\x7b\x7bdatabase\x7d\x7d" : String).data]

/-- The old/new pairs of the replacer of `root`, as code points. -/
def placeholderPairs (u p d : List Char) : List (List Char × List Char) :=
  [(("\x7b\x7busername\x7d\x7d" : String).data, u),
   (("\x7b\x7bpassword\x7d\x7d" : String).data, p),
   (("\x7b\x7bdatabase\x7d\x7d" : String).data, d)]

/-- The opening brace, the first code point of every placeholder. -/
def openBrace : Char := Char.ofNat 123

/-- A piece of a connection-URL template: one of the three placeholders or a
single literal code point. -/
inductive Piece where
  | lit (c : Char)
  | username
  | password
  | database
  deriving DecidableEq, Repr

/-- The text a piece stands for in the template. -/
def Piece.source : Piece → List Char
  | .lit c => [c]
  | .username => ("\x7b\x7busername\x7d\x7d" : String).data
  | .password => ("\x7b\x7bpassword\x7d\x7d" : String).data
  | .database => ("\x7b\x7bdatabase\x7d\x7d" : String).data

/-- The text a piece stands for after expansion with the values `u`, `p`, `d`. -/
def Piece.expand (u p d : List Char) : Piece → List Char
  | .lit c => [c]
  | .username => u
  | .password => p
  | .database => d

/-- The template spelled by a list of pieces. -/
def templateText : List Piece → List Char
  | [] => []
  | q :: qs => q.source ++ templateText qs

/-- The pieces with every placeholder replaced by its value. -/
def expandPieces (u p d : List Char) : List Piece → List Char
  | [] => []
  | q :: qs => q.expand u p d ++ expandPieces u p d qs

/-- A reading of a template, from left to right, in which no placeholder is
spelled by literal pieces: at every literal piece no placeholder starts. A
property of the template text and the three tokens alone. -/
def canonical : List Piece → Bool
  | [] => true
  | .lit c :: qs =>
    placeholderKeys.all (fun k => !k.isPrefixOf (c :: templateText qs)) && canonical qs
  | .username :: qs => canonical qs
  | .password :: qs => canonical qs
  | .database :: qs => canonical qs

/-- The literal pieces of a text. -/
def litPieces (s : String) : List Piece :=
  s.data.map Piece.lit

/-- The pieces of the template
`postgres://\x7b\x7busername\x7d\x7d:\x7b\x7bpassword\x7d\x7d@db:5432/\x7b\x7bdatabase\x7d\x7d`. -/
def demoPieces : List Piece :=
  litPieces "postgres://" ++ [.username] ++ litPieces ":" ++ [.password] ++
    litPieces "@db:5432/" ++ [.database]

/-! ## cmd/vault/vault.go -/

/-- Go `VaultConfig`. -/
structure VaultConfig where
  VaultURL : String
  DatabaseURL : String
  Username : String
  Password : String

/-- Go `Auth`. -/
structure Auth where
  ClientToken : String
  LeaseDuration : Int

/-- Go `Data`. -/
structure Data where
  Username : String
  Password : String

/-- Go `VaultResponse`. -/
structure VaultResponse where
  RequestID : String
  Auth : Auth
  Data : Data

/-- Go `VaultResponseError`. -/
structure VaultResponseError where
  Errors : List String
  Error : String

/-- Go `(*VaultResponseError).HasErrors`. -/
def VaultResponseError.HasErrors (e : VaultResponseError) : Bool :=
  e.Errors.length > 0 || e.Error ≠ ""

/-- Go `fmt.Sprintf("%v", xs)` for a `[]string`. -/
def formatStrings (xs : List String) : String :=
  "[" ++ " ".intercalate xs ++ "]"

/-- Go `(*VaultResponseError).FormatError`. -/
def VaultResponseError.FormatError (e : VaultResponseError) : String :=
  if e.Error ≠ "" then e.Error
  else if e.Errors.length > 0 then formatStrings e.Errors
  else "unknown error"

/-- Go `DBConnections`. -/
structure DBConnections where
  URL : String
  Name : String
  deriving DecidableEq, Repr

/-- Go `Database`. -/
structure Database where
  Name : String
  Environment : String
  deriving DecidableEq, Repr

/-- A request handed to `client.Do`: method, URL, marshalled body and the
header lines added. -/
structure Request where
  method : String
  url : String
  body : String
  header : List (String × String)
  deriving DecidableEq, Repr

/-- What `client.Do` yields: the status code and the result of reading the
whole body. -/
structure Response where
  StatusCode : Int
  Body : Except String String

/-- The outside world of the vault client: `json.Marshal`, the validation done
by `http.NewRequest`, the HTTP round trip, the `json.Unmarshal` calls into
each target type (for `VaultDatabaseResponse` the decoded `data.keys`), the
file system and `json.MarshalIndent`. -/
structure VaultEnv where
  marshal : List (String × AnyValue) → Except String String
  newRequest : String → String → Option String
  roundTrip : Request → Except String Response
  unmarshalError : String → Except String VaultResponseError
  unmarshalResponse : String → Except String VaultResponse
  unmarshalDatabaseKeys : String → Except String (List String)
  readFile : String → Except String String
  unmarshalConnections : String → Except String (List DBConnections)
  marshalIndent : List DBConnections → Except String String
  writeFile : String → String → Option String

/-- Actions the vault client performs on the outside world. -/
inductive VaultAction where
  | request (r : Request)
  | stdout (text : String)
  | readFile (path : String)
  | writeFile (path data : String) (perm : Nat)
  deriving DecidableEq, Repr

/-- The HTTP requests among a list of actions. -/
def requestsOf (log : List VaultAction) : List Request :=
  log.filterMap (fun a => match a with
    | .request r => some r
    | _ => none)

/-- The header loop of `HTTPRequest`: only string values are added. -/
def stringHeaders (headers : List (String × AnyValue)) : List (String × String) :=
  headers.filterMap (fun kv => match kv.2 with
    | .string str => some (kv.1, str)
    | _ => none)

/-- Go `HTTPRequest`: the `([]byte, error)` result and the actions performed. -/
def HTTPRequest (env : VaultEnv) (method url : String)
    (body headers : List (String × AnyValue)) : Except String String × List VaultAction :=
  match env.marshal body with
  | .error e => (.error ("error while marshaling the json: " ++ e), [])
  | .ok jsonData =>
    match env.newRequest method url with
    | some e => (.error ("error while assembling the new vault request: " ++ e), [])
    | none =>
      let req : Request := ⟨method, url, jsonData, stringHeaders headers⟩
      match env.roundTrip req with
      | .error e => (.error ("error while running the new vault request: " ++ e), [.request req])
      | .ok res =>
        match res.Body with
        | .error e => (.error ("error while reading the response body: " ++ e), [.request req])
        | .ok resBody =>
          if res.StatusCode < 200 ∨ res.StatusCode ≥ 300 then
            match env.unmarshalError resBody with
            | .ok vaultErr =>
              if vaultErr.HasErrors then
                (.error ("HTTP " ++ toString res.StatusCode ++ ": Vault error: "
                  ++ vaultErr.FormatError), [.request req])
              else
                (.error ("HTTP " ++ toString res.StatusCode ++ ": request failed"),
                  [.request req])
            | .error _ =>
              (.error ("HTTP " ++ toString res.StatusCode ++ ": request failed"),
                [.request req])
          else
            match env.unmarshalError resBody with
            | .ok vaultErr =>
              if vaultErr.HasErrors then
                (.error ("HTTP " ++ toString res.StatusCode ++ ": Vault returned errors: "
                  ++ vaultErr.FormatError), [.request req])
              else (.ok resBody, [.request req])
            | .error _ => (.ok resBody, [.request req])

/-- Go `GetVaultToken`. -/
def GetVaultToken (env : VaultEnv) (vaultConfig : VaultConfig) :
    Except String String × List VaultAction :=
  let loginURL := vaultConfig.VaultURL ++ "/v1/auth/userpass/login/" ++ vaultConfig.Username
  let vaultReqBody := [("password", AnyValue.string vaultConfig.Password)]
  let headers := [("Content-Type", AnyValue.string "application/json")]
  match HTTPRequest env "POST" loginURL vaultReqBody headers with
  | (.error e, log) => (.error ("error while retrieving the vault token: " ++ e), log)
  | (.ok res, log) =>
    match env.unmarshalResponse res with
    | .error e => (.error ("error while unmarshalling vault response: " ++ e), log)
    | .ok response => (.ok response.Auth.ClientToken, log)

/-- The role name `GetDatabaseCredentials` derives from the selected name
(its local `cleanDBName`). -/
def cleanDBName (selected : String) : String :=
  Replace selected "jangl-" "" 1

/-- Go `GetDatabaseCredentials`. -/
def GetDatabaseCredentials (env : VaultEnv) (vaultConfig : VaultConfig)
    (token selected : String) : Except String VaultResponse × List VaultAction :=
  let loginURL := vaultConfig.VaultURL ++ "/v1/database/static-creds/ops-" ++ cleanDBName selected
  let vaultReqBody : List (String × AnyValue) := []
  let headers := [("Content-Type", AnyValue.string "application/json"),
    ("X-Vault-Token", AnyValue.string token)]
  match HTTPRequest env "GET" loginURL vaultReqBody headers with
  | (.error e, log) =>
    (.error ("error in the http request while retrieving the credentials: " ++ e), log)
  | (.ok res, log) =>
    match env.unmarshalResponse res with
    | .error e => (.error ("error in unmarshalling the credentials: " ++ e), log)
    | .ok credentials => (.ok credentials, log)

/-- Go `GetVaultDatabaseList`. -/
def GetVaultDatabaseList (env : VaultEnv) (vaultConfig : VaultConfig) (envName : String) :
    Except String (List Database) × List VaultAction :=
  let configURL := vaultConfig.VaultURL ++ "/v1/database/config?list=true"
  match GetVaultToken env vaultConfig with
  | (.error e, log) => (.error ("error while getting the vault token: " ++ e), log)
  | (.ok token, log) =>
    let vaultReqBody : List (String × AnyValue) := []
    let headers := [("Content-Type", AnyValue.string "application/json"),
      ("X-Vault-Token", AnyValue.string token)]
    match HTTPRequest env "LIST" configURL vaultReqBody headers with
    | (.error e, log2) =>
      (.error ("error while doing vault database list request: " ++ e), log ++ log2)
    | (.ok res, log2) =>
      match env.unmarshalDatabaseKeys res with
      | .error e => (.error ("error unmarshalling vault database list: " ++ e), log ++ log2)
      | .ok keys => (.ok (keys.map (fun v => ⟨v, envName⟩)), log ++ log2)

/-- Go `GetDatabaseList`. -/
def GetDatabaseList (env : VaultEnv) (envName bwToken : String) (vaultConfig : VaultConfig) :
    Except String (List Database) × List VaultAction :=
  if envName = "prod" then
    match GetVaultDatabaseList env vaultConfig envName with
    | (.error e, log) =>
      (.error ("error while retrieving the database list from vault: " ++ e), log)
    | (.ok databases, log) => (.ok databases, log)
  else if envName = "sqa" then
    (.ok [], [.stdout "AWS credentials retrieving feature is in development\n"])
  else if envName = "dev" then
    (.ok [], [.stdout "AWS credentials retrieving feature is in development\n"])
  else (.ok [], [])

/-- The search loop of `UpdateNvimDB`: the first entry named `searchName`
gets the URL `fullURL` and the loop stops; the flag is `found`. -/
def updateLoop (searchName fullURL : String) : List DBConnections → List DBConnections × Bool
  | [] => ([], false)
  | conn :: rest =>
    if conn.Name = searchName then ({ conn with URL := fullURL } :: rest, true)
    else ((conn :: (updateLoop searchName fullURL rest).1),
      (updateLoop searchName fullURL rest).2)

/-- The list `UpdateNvimDB` marshals: the result of the loop, with a new entry
appended when nothing was found. -/
def upsertConnection (nvimDB : List DBConnections) (searchName fullURL : String) :
    List DBConnections :=
  if (updateLoop searchName fullURL nvimDB).2 then (updateLoop searchName fullURL nvimDB).1
  else (updateLoop searchName fullURL nvimDB).1 ++ [{ Name := searchName, URL := fullURL }]

/-- Go `UpdateNvimDB`: the returned error and the actions performed. -/
def UpdateNvimDB (env : VaultEnv) (nvimDBPath : String) (dbCredentials : VaultResponse)
    (environment selected fullURL : String) : Option String × List VaultAction :=
  match env.readFile nvimDBPath with
  | .error e => (some ("error opening db connections file: " ++ e), [.readFile nvimDBPath])
  | .ok dbFile =>
    match env.unmarshalConnections dbFile with
    | .error e =>
      (some ("error parsing the db connections file: " ++ e), [.readFile nvimDBPath])
    | .ok nvimDB =>
      let searchName := environment ++ "-" ++ selected
      let found := (updateLoop searchName fullURL nvimDB).2
      let report :=
        if found then "✓ Updated connection: " ++ searchName ++ "\n"
        else "✓ Added new connection: " ++ searchName ++ "\n"
      match env.marshalIndent (upsertConnection nvimDB searchName fullURL) with
      | .error e =>
        (some ("error while marshal indenting the connections: " ++ e),
          [.readFile nvimDBPath, .stdout report])
      | .ok updatedData =>
        (env.writeFile nvimDBPath updatedData,
          [.readFile nvimDBPath, .stdout report, .writeFile nvimDBPath updatedData 0o644])

/-- The files written among a list of actions, as (path, data) pairs. -/
def writesOf (log : List VaultAction) : List (String × String) :=
  log.filterMap (fun a => match a with
    | .writeFile path data _ => some (path, data)
    | _ => none)

/-! ### Concrete worlds used to run the vault client -/

/-- A plain rendering of a connection list, standing for `json.MarshalIndent`
in the concrete worlds. -/
def renderConnections (l : List DBConnections) : String :=
  "[" ++ ", ".intercalate (l.map (fun c => c.Name ++ " -> " ++ c.URL)) ++ "]"

/-- A world in which every request is answered with status `code` and body
`body`, the body decodes to `decoded` as an error envelope, and the
connections file holds `file`. -/
def demoVaultEnv (code : Int) (body : String) (decoded : Except String VaultResponseError)
    (file : List DBConnections) : VaultEnv where
  marshal := fun _ => .ok "\x7b\x7d"
  newRequest := fun _ _ => none
  roundTrip := fun _ => .ok ⟨code, .ok body⟩
  unmarshalError := fun b => if b = body then decoded else .error "invalid character"
  unmarshalResponse := fun _ => .ok ⟨"r1", ⟨"s.token", 3600⟩, ⟨"app", "secret"⟩⟩
  unmarshalDatabaseKeys := fun _ => .ok ["jangl-orders"]
  readFile := fun _ => .ok "connections"
  unmarshalConnections := fun _ => .ok file
  marshalIndent := fun l => .ok (renderConnections l)
  writeFile := fun _ _ => none

/-- The error envelope of the body `\x7b"errors":["no such path"]\x7d`. -/
def noSuchPath : VaultResponseError :=
  { Errors := ["no such path"], Error := "" }

/-- The error envelope of the body `\x7b"error":"internal"\x7d`. -/
def internalError : VaultResponseError :=
  { Errors := [], Error := "internal" }

/-- A configuration used in the concrete runs. -/
def demoConfig : VaultConfig :=
  { VaultURL := "https://vault.test", DatabaseURL := "", Username := "ops", Password := "pw" }

/-- Credentials used in the concrete runs. -/
def demoCredentials : VaultResponse :=
  ⟨"r1", ⟨"s.token", 3600⟩, ⟨"app", "secret"⟩⟩

/-! # Theorems -/

/-! ## Session manager -/

/-- C1: with a non-empty cached token `c`, a successful status query and a
decoded status `unlocked`, `GetSessionOrLogin` returns `c` with no error, and
none of its actions is a login, an unlock or a cache write. -/
theorem GetSessionOrLogin_unlocked_reuses_cache (env : BWEnv) (c out : String)
    (data : AnyMap) (hc : c ≠ "") (hread : (readBWSession env).1 = .ok c)
    (hstatus : env.bwStatus (some c) = .ok out) (hjson : env.unmarshal out = .ok data)
    (hst : assertString (data "status") = some "unlocked") :
    (GetSessionOrLogin env).1 = .ok c ∧
    ∀ a ∈ (GetSessionOrLogin env).2,
      a.isLogin = false ∧ a.isUnlock = false ∧ a.isCacheWrite = false := by
  have hct : cachedToken env = c := by simp [cachedToken, hread]
  have hss : statusSession env = some c := by simp [statusSession, hct, hc]
  have hlog : ∀ a ∈ (readBWSession env).2,
      a.isLogin = false ∧ a.isUnlock = false ∧ a.isCacheWrite = false := by
    intro a ha
    unfold readBWSession at ha
    split at ha
    · simp at ha
    · dsimp only at ha
      split at ha <;> simp at ha <;> subst ha <;>
        simp [BWAction.isLogin, BWAction.isUnlock, BWAction.isCacheWrite]
  have hrun : GetSessionOrLogin env =
      (.ok c, (readBWSession env).2 ++ [.run ["bw", "status"] (some c)]
        ++ [.stdout ("Status:  " ++ "unlocked" ++ "\n")]) := by
    unfold GetSessionOrLogin
    simp only [hss, hstatus, hjson, hst, hct]
    simp [hc]
  rw [hrun]
  refine ⟨rfl, ?_⟩
  intro a ha
  simp only [List.mem_append, List.mem_singleton] at ha
  rcases ha with (ha | ha) | ha
  · exact hlog a ha
  · subst ha; simp [BWAction.isLogin, BWAction.isUnlock, BWAction.isCacheWrite]
  · subst ha; simp [BWAction.isLogin, BWAction.isUnlock, BWAction.isCacheWrite]

/-- Witness for C1 in the world `demoEnv "unlocked"`, whose cache holds `abc`. -/
theorem GetSessionOrLogin_unlocked_reuses_cache_witness :
    (GetSessionOrLogin (demoEnv "unlocked")).1 = .ok "abc" ∧
    ∀ a ∈ (GetSessionOrLogin (demoEnv "unlocked")).2,
      a.isLogin = false ∧ a.isUnlock = false ∧ a.isCacheWrite = false :=
  GetSessionOrLogin_unlocked_reuses_cache (demoEnv "unlocked") "abc"
    "\x7b\"status\":\"unlocked\"\x7d" (statusMap "unlocked") (by decide) rfl rfl rfl rfl

/-- The failing parts of C2 that the code does implement: a string status
other than the three known ones is an error, and so is `unlocked` with an
empty cached token. -/
theorem GetSessionOrLogin_unknown_or_tokenless_fails (env : BWEnv) (out status : String)
    (data : AnyMap) (hstatus : env.bwStatus (statusSession env) = .ok out)
    (hjson : env.unmarshal out = .ok data)
    (hst : assertString (data "status") = some status)
    (hbad : (status ≠ "unauthenticated" ∧ status ≠ "locked" ∧ status ≠ "unlocked") ∨
      (status = "unlocked" ∧ cachedToken env = "")) :
    ∃ msg, (GetSessionOrLogin env).1 = .error msg := by
  unfold GetSessionOrLogin
  simp only [hstatus, hjson, hst]
  rcases hbad with ⟨h1, h2, h3⟩ | ⟨h1, h2⟩
  · simp [h1, h2, h3]
  · subst h1
    simp [h2]

/-- A status response without a string status field makes `GetSessionOrLogin`
return the empty token and no error, whatever else the world does. -/
theorem GetSessionOrLogin_missing_status_field (env : BWEnv) (out : String)
    (data : AnyMap) (hstatus : env.bwStatus (statusSession env) = .ok out)
    (hjson : env.unmarshal out = .ok data)
    (hst : assertString (data "status") = none) :
    (GetSessionOrLogin env).1 = .ok "" := by
  unfold GetSessionOrLogin
  simp only [hstatus, hjson, hst]

/-- C2 (failing input): when `bw status` prints an object without a status
field, `GetSessionOrLogin` returns the empty token with no error, after the one
cache read and the one status query. -/
theorem GetSessionOrLogin_noStatusEnv :
    GetSessionOrLogin noStatusEnv =
      (.ok "", [.readFile "/home/u/.cache/.bw_session", .run ["bw", "status"] none]) := by
  rfl

/-- C3: a cache-write failure aborts only the `unauthenticated` path. With a
successful status query and an unlock that yields `t`: on status `locked` the
result is `t` with no error and no login is run, whatever the cache write
does; on status `unauthenticated` with a successful login, a failing cache
write makes the result an error. -/
theorem GetSessionOrLogin_cache_write_failure (env : BWEnv) (out status t : String)
    (data : AnyMap) (hstatus : env.bwStatus (statusSession env) = .ok out)
    (hjson : env.unmarshal out = .ok data)
    (hst : assertString (data "status") = some status)
    (hunlock : (unlockRaw env).1 = .ok t) :
    (status = "locked" →
      (GetSessionOrLogin env).1 = .ok t ∧
      ∀ a ∈ (GetSessionOrLogin env).2, a.isLogin = false) ∧
    (status = "unauthenticated" → env.bwLogin = none →
      ∀ e, (writeBWSession env t).1 = some e →
        (GetSessionOrLogin env).1 = .error ("unlock after login failed: " ++ e)) := by
  have hU : unlockRaw env = (.ok t, [.run ["bw", "unlock", "--raw"] none]) := by
    unfold unlockRaw at hunlock ⊢
    split at hunlock <;> simp_all
  have hR : ∀ a ∈ (readBWSession env).2, a.isLogin = false := by
    intro a ha
    unfold readBWSession at ha
    split at ha
    · simp at ha
    · dsimp only at ha
      split at ha <;> simp at ha <;> subst ha <;> simp [BWAction.isLogin]
  have hW : ∀ a ∈ (writeBWSession env t).2, a.isLogin = false := by
    intro a ha
    unfold writeBWSession at ha
    split at ha
    · simp at ha
    · split at ha
      · simp at ha; subst ha; simp [BWAction.isLogin]
      · simp at ha
        rcases ha with ha | ha <;> subst ha <;> simp [BWAction.isLogin]
  constructor
  · intro hl
    subst hl
    unfold GetSessionOrLogin
    simp only [hstatus, hjson, hst, hU]
    have hne : ("locked" : String) ≠ "unauthenticated" := by decide
    simp only [hne, if_false, if_true]
    rcases hw : writeBWSession env t with ⟨_ | e, wl⟩
    · refine ⟨rfl, ?_⟩
      intro a ha
      have hwl : ∀ a ∈ wl, a.isLogin = false := by
        intro a ha; apply hW; rw [hw]; exact ha
      simp only [List.mem_append, List.mem_singleton] at ha
      rcases ha with ((((ha | ha) | ha) | ha) | ha) | ha
      · exact hR a ha
      · subst ha; simp [BWAction.isLogin]
      · subst ha; simp [BWAction.isLogin]
      · subst ha; simp [BWAction.isLogin]
      · subst ha; simp [BWAction.isLogin]
      · exact hwl a ha
    · refine ⟨rfl, ?_⟩
      intro a ha
      have hwl : ∀ a ∈ wl, a.isLogin = false := by
        intro a ha; apply hW; rw [hw]; exact ha
      simp only [List.mem_append, List.mem_singleton] at ha
      rcases ha with (((((ha | ha) | ha) | ha) | ha) | ha) | ha
      · exact hR a ha
      · subst ha; simp [BWAction.isLogin]
      · subst ha; simp [BWAction.isLogin]
      · subst ha; simp [BWAction.isLogin]
      · subst ha; simp [BWAction.isLogin]
      · exact hwl a ha
      · subst ha; simp [BWAction.isLogin]
  · intro hu hlogin e hw
    subst hu
    unfold GetSessionOrLogin
    simp only [hstatus, hjson, hst, hU, hlogin, if_true]
    rcases hw2 : writeBWSession env t with ⟨_ | e2, wl⟩
    · rw [hw2] at hw; simp at hw
    · rw [hw2] at hw
      simp at hw
      subst hw
      rfl

/-- Witness for C3: in `demoEnv` the cache directory cannot be created, so
the cache write fails on both paths; `locked` still yields the unlocked token,
`unauthenticated` yields an error. -/
theorem GetSessionOrLogin_cache_write_failure_witness :
    (writeBWSession (demoEnv "locked") "tok").1 = some "read-only file system" ∧
    ((GetSessionOrLogin (demoEnv "locked")).1 = .ok "tok" ∧
      ∀ a ∈ (GetSessionOrLogin (demoEnv "locked")).2, a.isLogin = false) ∧
    (GetSessionOrLogin (demoEnv "unauthenticated")).1 =
      .error ("unlock after login failed: " ++ "read-only file system") :=
  ⟨rfl,
   (GetSessionOrLogin_cache_write_failure (demoEnv "locked")
      "\x7b\"status\":\"locked\"\x7d" "locked" "tok" (statusMap "locked")
      rfl rfl rfl rfl).1 rfl,
   (GetSessionOrLogin_cache_write_failure (demoEnv "unauthenticated")
      "\x7b\"status\":\"unauthenticated\"\x7d" "unauthenticated" "tok"
      (statusMap "unauthenticated") rfl rfl rfl rfl).2 rfl rfl
      "read-only file system" rfl⟩

/-! ## HTTP client -/

theorem Contains_append_left {a x : String} (b : String) (h : Contains a x) :
    Contains (a ++ b) x := by
  unfold Contains at *
  rw [String.data_append]
  exact List.IsInfix.trans h (List.infix_append' [] a.data b.data |>.trans (by simp))

theorem Contains_append_right {b x : String} (a : String) (h : Contains b x) :
    Contains (a ++ b) x := by
  unfold Contains at *
  rw [String.data_append]
  exact List.IsInfix.trans h (List.suffix_append a.data b.data).isInfix

theorem Contains_refl (a : String) : Contains a a :=
  List.infix_refl a.data

/-- C4: when the round trip yields a response whose status code is outside
[200,300), `HTTPRequest` fails with a message that contains the status code.
If the body decodes to an error envelope with errors, the message also
contains the envelope's formatted message; otherwise it is the generic
`HTTP <code>: request failed`. -/
theorem HTTPRequest_status_outside_2xx (env : VaultEnv) (method url jsonData resBody : String)
    (body headers : List (String × AnyValue)) (res : Response)
    (hm : env.marshal body = .ok jsonData) (hn : env.newRequest method url = none)
    (hr : env.roundTrip ⟨method, url, jsonData, stringHeaders headers⟩ = .ok res)
    (hb : res.Body = .ok resBody)
    (hcode : res.StatusCode < 200 ∨ 300 ≤ res.StatusCode) :
    ∃ msg, (HTTPRequest env method url body headers).1 = .error msg ∧
      Contains msg (toString res.StatusCode) ∧
      (∀ e, env.unmarshalError resBody = .ok e → (e.Errors ≠ [] ∨ e.Error ≠ "") →
        Contains msg e.FormatError) ∧
      ((¬ ∃ e, env.unmarshalError resBody = .ok e ∧ (e.Errors ≠ [] ∨ e.Error ≠ "")) →
        msg = "HTTP " ++ toString res.StatusCode ++ ": request failed") := by
  have hcode2 : res.StatusCode < 200 ∨ res.StatusCode ≥ 300 := hcode
  have hgen : Contains ("HTTP " ++ toString res.StatusCode ++ ": request failed")
      (toString res.StatusCode) :=
    Contains_append_left _ (Contains_append_right _ (Contains_refl _))
  unfold HTTPRequest
  simp only [hm, hn, hr, hb, hcode2, if_true]
  cases hu : env.unmarshalError resBody with
  | error err =>
    refine ⟨_, rfl, hgen, ?_, ?_⟩
    · intro e he; cases he
    · intro _; rfl
  | ok vaultErr =>
    by_cases hh : vaultErr.HasErrors = true
    · simp only [hh, if_true]
      refine ⟨_, rfl, ?_, ?_, ?_⟩
      · exact Contains_append_left _ (Contains_append_left _
          (Contains_append_right _ (Contains_refl _)))
      · intro e he _
        cases he
        exact Contains_append_right _ (Contains_refl _)
      · intro hno
        exfalso
        apply hno
        refine ⟨vaultErr, rfl, ?_⟩
        simp only [VaultResponseError.HasErrors, Bool.or_eq_true, decide_eq_true_eq] at hh
        rcases hh with hh | hh
        · left; intro h0; rw [h0] at hh; simp at hh
        · right; exact hh
    · simp only [hh]
      refine ⟨_, rfl, hgen, ?_, ?_⟩
      · intro e he hne
        cases he
        exfalso
        apply hh
        simp only [VaultResponseError.HasErrors, Bool.or_eq_true, decide_eq_true_eq]
        rcases hne with hne | hne
        · left; exact List.length_pos.mpr hne
        · right; exact hne
      · intro _; rfl

/-- Witness for C4: status 404 with the body `\x7b"errors":["no such path"]\x7d`
gives the message `HTTP 404: Vault error: [no such path]`, which contains
`no such path` and `404`. -/
theorem HTTPRequest_status_outside_2xx_witness :
    (∃ msg, (HTTPRequest (demoVaultEnv 404 "\x7b\"errors\":[\"no such path\"]\x7d"
          (.ok noSuchPath) []) "GET" "https://vault.test/v1/x" [] []).1 = .error msg ∧
      Contains msg (toString (404 : Int)) ∧
      (∀ e, (.ok noSuchPath : Except String VaultResponseError) = .ok e →
        (e.Errors ≠ [] ∨ e.Error ≠ "") → Contains msg e.FormatError) ∧
      ((¬ ∃ e, (.ok noSuchPath : Except String VaultResponseError) = .ok e ∧
          (e.Errors ≠ [] ∨ e.Error ≠ "")) →
        msg = "HTTP " ++ toString (404 : Int) ++ ": request failed")) ∧
    (HTTPRequest (demoVaultEnv 404 "\x7b\"errors\":[\"no such path\"]\x7d"
        (.ok noSuchPath) []) "GET" "https://vault.test/v1/x" [] []).1 =
      .error "HTTP 404: Vault error: [no such path]" ∧
    Contains "HTTP 404: Vault error: [no such path]" "no such path" ∧
    Contains "HTTP 404: Vault error: [no such path]" "404" :=
  ⟨HTTPRequest_status_outside_2xx
      (demoVaultEnv 404 "\x7b\"errors\":[\"no such path\"]\x7d" (.ok noSuchPath) [])
      "GET" "https://vault.test/v1/x" "\x7b\x7d" "\x7b\"errors\":[\"no such path\"]\x7d"
      [] [] ⟨404, .ok "\x7b\"errors\":[\"no such path\"]\x7d"⟩ rfl rfl rfl rfl
      (Or.inr (by decide)),
   rfl, by decide, by decide⟩

/-- C5: when the round trip yields a response whose status code is in
[200,300), `HTTPRequest` fails exactly when the body decodes to an error
envelope with a non-empty `errors` list or a non-empty `error` string; in
every other case it returns the response body itself with no error. -/
theorem HTTPRequest_status_2xx (env : VaultEnv) (method url jsonData resBody : String)
    (body headers : List (String × AnyValue)) (res : Response)
    (hm : env.marshal body = .ok jsonData) (hn : env.newRequest method url = none)
    (hr : env.roundTrip ⟨method, url, jsonData, stringHeaders headers⟩ = .ok res)
    (hb : res.Body = .ok resBody)
    (hcode : 200 ≤ res.StatusCode ∧ res.StatusCode < 300) :
    ((∃ msg, (HTTPRequest env method url body headers).1 = .error msg) ↔
      ∃ e, env.unmarshalError resBody = .ok e ∧ (e.Errors ≠ [] ∨ e.Error ≠ "")) ∧
    ((¬ ∃ e, env.unmarshalError resBody = .ok e ∧ (e.Errors ≠ [] ∨ e.Error ≠ "")) →
      (HTTPRequest env method url body headers).1 = .ok resBody) := by
  have hcode2 : ¬ (res.StatusCode < 200 ∨ res.StatusCode ≥ 300) := by omega
  have hiff : ∀ e : VaultResponseError,
      e.HasErrors = true ↔ (e.Errors ≠ [] ∨ e.Error ≠ "") := by
    intro e
    simp only [VaultResponseError.HasErrors, Bool.or_eq_true, decide_eq_true_eq]
    constructor
    · rintro (h | h)
      · left; exact List.length_pos.mp h
      · right; exact h
    · rintro (h | h)
      · left; exact List.length_pos.mpr h
      · right; exact h
  unfold HTTPRequest
  simp only [hm, hn, hr, hb, hcode2, if_false]
  cases hu : env.unmarshalError resBody with
  | error err =>
    refine ⟨⟨?_, ?_⟩, fun _ => rfl⟩
    · rintro ⟨msg, hmsg⟩; cases hmsg
    · rintro ⟨e, he, _⟩; cases he
  | ok vaultErr =>
    by_cases hh : vaultErr.HasErrors = true
    · simp only [hh, if_true]
      refine ⟨⟨fun _ => ⟨vaultErr, rfl, (hiff vaultErr).mp hh⟩, fun _ => ⟨_, rfl⟩⟩, ?_⟩
      intro hno
      exact absurd ⟨vaultErr, rfl, (hiff vaultErr).mp hh⟩ hno
    · simp only [hh]
      refine ⟨⟨?_, ?_⟩, fun _ => rfl⟩
      · rintro ⟨msg, hmsg⟩; cases hmsg
      · rintro ⟨e, he, hne⟩
        cases he
        exact absurd ((hiff _).mpr hne) hh

/-- Witness for C5: status 200 with the body `\x7b"error":"internal"\x7d` fails. -/
theorem HTTPRequest_status_2xx_witness :
    (((∃ msg, (HTTPRequest (demoVaultEnv 200 "\x7b\"error\":\"internal\"\x7d"
          (.ok internalError) []) "GET" "https://vault.test/v1/x" [] []).1 = .error msg) ↔
      ∃ e, (.ok internalError : Except String VaultResponseError) = .ok e ∧
        (e.Errors ≠ [] ∨ e.Error ≠ "")) ∧
    ((¬ ∃ e, (.ok internalError : Except String VaultResponseError) = .ok e ∧
        (e.Errors ≠ [] ∨ e.Error ≠ "")) →
      (HTTPRequest (demoVaultEnv 200 "\x7b\"error\":\"internal\"\x7d"
          (.ok internalError) []) "GET" "https://vault.test/v1/x" [] []).1 =
        .ok "\x7b\"error\":\"internal\"\x7d")) ∧
    (HTTPRequest (demoVaultEnv 200 "\x7b\"error\":\"internal\"\x7d"
        (.ok internalError) []) "GET" "https://vault.test/v1/x" [] []).1 =
      .error "HTTP 200: Vault returned errors: internal" :=
  ⟨HTTPRequest_status_2xx
      (demoVaultEnv 200 "\x7b\"error\":\"internal\"\x7d" (.ok internalError) [])
      "GET" "https://vault.test/v1/x" "\x7b\x7d" "\x7b\"error\":\"internal\"\x7d"
      [] [] ⟨200, .ok "\x7b\"error\":\"internal\"\x7d"⟩ rfl rfl rfl rfl
      (by decide),
   rfl⟩

/-! ## Role name and credentials request -/

theorem indexChars_none (sub s : List Char) (h : ¬ sub <:+: s) : indexChars sub s = none := by
  induction s with
  | nil =>
    unfold indexChars
    split
    · rename_i hp
      exact absurd (List.isPrefixOf_iff_prefix.mp hp).isInfix h
    · rfl
  | cons c cs ih =>
    unfold indexChars
    split
    · rename_i hp
      exact absurd (List.isPrefixOf_iff_prefix.mp hp).isInfix h
    · have hcs : ¬ sub <:+: cs := fun hi =>
        h (hi.trans (List.suffix_cons c cs).isInfix)
      rw [ih hcs]
      rfl

theorem indexChars_first (sub post : List Char) (hsub : sub ≠ []) :
    ∀ pre : List Char, ¬ sub <:+: pre ++ sub.dropLast →
      indexChars sub (pre ++ sub ++ post) = some pre.length := by
  intro pre
  induction pre with
  | nil =>
    intro _
    have hp : sub.isPrefixOf (sub ++ post) = true :=
      List.isPrefixOf_iff_prefix.mpr (List.prefix_append sub post)
    cases hs : sub ++ post with
    | nil => simp at hs; exact absurd hs.1 hsub
    | cons c cs =>
      simp only [List.nil_append, hs] at hp ⊢
      unfold indexChars
      simp [hp]
  | cons c pre ih =>
    intro hfree
    have hnp : sub.isPrefixOf (c :: (pre ++ sub ++ post)) = false := by
      by_contra hp
      simp only [Bool.not_eq_false] at hp
      have hp1 : sub <+: (c :: pre) ++ sub ++ post := by
        simpa using List.isPrefixOf_iff_prefix.mp hp
      have hp2 : (c :: pre) ++ sub.dropLast <+: (c :: pre) ++ sub ++ post := by
        rw [List.append_assoc]
        apply (List.prefix_append_right_inj (c :: pre)).mpr
        exact (List.dropLast_prefix sub).trans (List.prefix_append sub post)
      have hlen : sub.length ≤ ((c :: pre) ++ sub.dropLast).length := by
        have : 0 < sub.length := List.length_pos.mpr hsub
        simp only [List.length_append, List.length_cons, List.length_dropLast]
        omega
      exact hfree (List.prefix_of_prefix_length_le hp1 hp2 hlen).isInfix
    have hfree2 : ¬ sub <:+: pre ++ sub.dropLast := fun hi =>
      hfree (hi.trans (List.suffix_cons c (pre ++ sub.dropLast)).isInfix)
    have := ih hfree2
    simp only [List.cons_append, List.length_cons]
    unfold indexChars
    rw [hnp, this]
    rfl

/-- C7: the role name derived from the selected name. `jangl-` followed by
`s` derives `s`; a selected name without `jangl-` is unchanged; and in
general only the first occurrence is removed: a name `pre ++ "jangl-" ++ post`
with no occurrence starting inside `pre` derives `pre ++ post`. -/
theorem cleanDBName_removes_first_occurrence (s selected pre post : String)
    (hfree : ¬ Contains selected "jangl-")
    (hfirst : ¬ Contains (pre ++ "jangl") "jangl-") :
    cleanDBName ("jangl-" ++ s) = s ∧
    cleanDBName selected = selected ∧
    cleanDBName (pre ++ "jangl-" ++ post) = pre ++ post ∧
    cleanDBName "jangl-orders" = "orders" ∧
    cleanDBName "orders" = "orders" := by
  have hne : ("jangl-" : String).data ≠ [] := by decide
  have hunf : ∀ x : String, cleanDBName x =
      ⟨replaceLoop ("jangl-" : String).data [] 1 x.data⟩ := by
    intro x
    unfold cleanDBName Replace
    have h1 : ¬ (("jangl-" : String) = "" ∨ (1 : Int) = 0) := by decide
    have h2 : ¬ ((1 : Int) < 0) := by decide
    simp only [h1, h2, if_false, hne]
    rfl
  have hgen : ∀ a b : String, ¬ Contains (a ++ "jangl") "jangl-" →
      cleanDBName (a ++ "jangl-" ++ b) = a ++ b := by
    intro a b hab
    rw [hunf]
    apply String.ext
    have hidx := indexChars_first ("jangl-" : String).data b.data hne a.data
      (by
        unfold Contains at hab
        rw [String.data_append] at hab
        exact hab)
    simp only [String.data_append]
    unfold replaceLoop
    simp only [hidx]
    simp [replaceLoop, List.take_append_eq_append_take, List.drop_append_eq_append_drop]
  refine ⟨?_, ?_, hgen pre post hfirst, by decide, by decide⟩
  · have := hgen "" s (by decide)
    simpa using this
  · rw [hunf]
    apply String.ext
    unfold replaceLoop
    rw [indexChars_none _ _ hfree]

/-- Witness for C7 at `orders`, and at `x-jangl-jangl-y`, where only the
first occurrence goes. -/
theorem cleanDBName_removes_first_occurrence_witness :
    cleanDBName ("jangl-" ++ "orders") = "orders" ∧
    cleanDBName "orders" = "orders" ∧
    cleanDBName ("x-" ++ "jangl-" ++ "jangl-y") = "x-" ++ "jangl-y" ∧
    cleanDBName "jangl-orders" = "orders" ∧
    cleanDBName "orders" = "orders" :=
  cleanDBName_removes_first_occurrence "orders" "orders" "x-" "jangl-y"
    (by decide) (by decide)

/-- The actions of `HTTPRequest`: nothing when marshalling or building the
request fails, otherwise the one request built from its arguments. -/
theorem HTTPRequest_log (env : VaultEnv) (method url : String)
    (body headers : List (String × AnyValue)) :
    (HTTPRequest env method url body headers).2 = [] ∨
    ∃ jsonData, env.marshal body = .ok jsonData ∧ env.newRequest method url = none ∧
      (HTTPRequest env method url body headers).2 =
        [.request ⟨method, url, jsonData, stringHeaders headers⟩] := by
  unfold HTTPRequest
  cases hm : env.marshal body with
  | error e => left; rfl
  | ok jsonData =>
    cases hn : env.newRequest method url with
    | some e => left; rfl
    | none =>
      right
      refine ⟨jsonData, rfl, rfl, ?_⟩
      dsimp only
      split
      · rfl
      · split
        · rfl
        · split
          · split
            · split <;> rfl
            · rfl
          · split
            · split <;> rfl
            · rfl

theorem HTTPRequest_log_of_sent (env : VaultEnv) (method url jsonData : String)
    (body headers : List (String × AnyValue))
    (hm : env.marshal body = .ok jsonData) (hn : env.newRequest method url = none) :
    (HTTPRequest env method url body headers).2 =
      [.request ⟨method, url, jsonData, stringHeaders headers⟩] := by
  rcases HTTPRequest_log env method url body headers with h | ⟨j, hj, _, h⟩
  · exfalso
    unfold HTTPRequest at h
    simp only [hm, hn] at h
    revert h
    split
    · simp
    · split
      · simp
      · split
        · split
          · split <;> simp
          · simp
        · split
          · split <;> simp
          · simp
  · rw [hm] at hj
    cases hj
    exact h

/-- C8 (counterexample): for the selected name `jangl-orders` the request goes
to `.../v1/database/static-creds/ops-orders`, which is not the base URL
followed by `/v1/database/static-creds/` and the role name `orders`. -/
theorem GetDatabaseCredentials_url_counterexample :
    requestsOf (GetDatabaseCredentials (demoVaultEnv 200 "\x7b\x7d" (.error "eof") [])
        demoConfig "s.token" "jangl-orders").2 =
      [⟨"GET", "https://vault.test/v1/database/static-creds/ops-orders", "\x7b\x7d",
        [("Content-Type", "application/json"), ("X-Vault-Token", "s.token")]⟩] ∧
    cleanDBName "jangl-orders" = "orders" ∧
    ¬ (∀ r ∈ requestsOf (GetDatabaseCredentials (demoVaultEnv 200 "\x7b\x7d" (.error "eof") [])
        demoConfig "s.token" "jangl-orders").2,
      r.method = "GET" ∧
      r.url = demoConfig.VaultURL ++ "/v1/database/static-creds/" ++
        cleanDBName "jangl-orders") := by
  refine ⟨by decide, by decide, ?_⟩
  decide

/-- C8 (amended): every request `GetDatabaseCredentials` issues is a GET whose
URL is the configured base URL followed by `/v1/database/static-creds/ops-`
and the selected name with the first `jangl-` removed; it issues at most one,
and exactly that one, carrying the token header, whenever the empty body
marshals and the request can be built. -/
theorem GetDatabaseCredentials_request (env : VaultEnv) (vaultConfig : VaultConfig)
    (token selected : String) :
    (∀ r ∈ requestsOf (GetDatabaseCredentials env vaultConfig token selected).2,
      r.method = "GET" ∧
      r.url = vaultConfig.VaultURL ++ "/v1/database/static-creds/ops-" ++
        cleanDBName selected) ∧
    (requestsOf (GetDatabaseCredentials env vaultConfig token selected).2).length ≤ 1 ∧
    (∀ jsonData, env.marshal [] = .ok jsonData →
      env.newRequest "GET" (vaultConfig.VaultURL ++ "/v1/database/static-creds/ops-" ++
        cleanDBName selected) = none →
      requestsOf (GetDatabaseCredentials env vaultConfig token selected).2 =
        [⟨"GET", vaultConfig.VaultURL ++ "/v1/database/static-creds/ops-" ++
            cleanDBName selected, jsonData,
          [("Content-Type", "application/json"), ("X-Vault-Token", token)]⟩]) := by
  have hlog : (GetDatabaseCredentials env vaultConfig token selected).2 =
      (HTTPRequest env "GET"
        (vaultConfig.VaultURL ++ "/v1/database/static-creds/ops-" ++ cleanDBName selected) []
        [("Content-Type", AnyValue.string "application/json"),
          ("X-Vault-Token", AnyValue.string token)]).2 := by
    unfold GetDatabaseCredentials
    dsimp only
    split
    · rename_i h; rw [h]
    · rename_i h; split <;> rw [h]
  rw [hlog]
  refine ⟨?_, ?_, ?_⟩
  · intro r hr
    rcases HTTPRequest_log env "GET"
      (vaultConfig.VaultURL ++ "/v1/database/static-creds/ops-" ++ cleanDBName selected) []
      [("Content-Type", AnyValue.string "application/json"),
        ("X-Vault-Token", AnyValue.string token)] with h | ⟨j, _, _, h⟩
    · rw [h] at hr; simp [requestsOf] at hr
    · rw [h] at hr
      simp [requestsOf] at hr
      subst hr
      exact ⟨rfl, rfl⟩
  · rcases HTTPRequest_log env "GET"
      (vaultConfig.VaultURL ++ "/v1/database/static-creds/ops-" ++ cleanDBName selected) []
      [("Content-Type", AnyValue.string "application/json"),
        ("X-Vault-Token", AnyValue.string token)] with h | ⟨j, _, _, h⟩
    · rw [h]; simp [requestsOf]
    · rw [h]; simp [requestsOf]
  · intro jsonData hm hn
    rw [HTTPRequest_log_of_sent env _ _ jsonData _ _ hm hn]
    simp [requestsOf, stringHeaders]

/-- Witness for C8 (amended) at the selected name `jangl-orders`. -/
theorem GetDatabaseCredentials_request_witness :
    requestsOf (GetDatabaseCredentials (demoVaultEnv 200 "\x7b\x7d" (.error "eof") [])
        demoConfig "s.token" "jangl-orders").2 =
      [⟨"GET", demoConfig.VaultURL ++ "/v1/database/static-creds/ops-" ++
          cleanDBName "jangl-orders", "\x7b\x7d",
        [("Content-Type", "application/json"), ("X-Vault-Token", "s.token")]⟩] :=
  (GetDatabaseCredentials_request (demoVaultEnv 200 "\x7b\x7d" (.error "eof") [])
    demoConfig "s.token" "jangl-orders").2.2 "\x7b\x7d" rfl rfl

/-! ## Database list -/

/-- C9: for an environment other than `prod`, `GetDatabaseList` returns the
empty list with no error and sends no request. -/
theorem GetDatabaseList_other_environment (env : VaultEnv) (envName bwToken : String)
    (vaultConfig : VaultConfig) (h : envName ≠ "prod") :
    (GetDatabaseList env envName bwToken vaultConfig).1 = .ok [] ∧
    requestsOf (GetDatabaseList env envName bwToken vaultConfig).2 = [] := by
  unfold GetDatabaseList
  simp only [h, if_false]
  split
  · exact ⟨rfl, rfl⟩
  · split
    · exact ⟨rfl, rfl⟩
    · exact ⟨rfl, rfl⟩

/-- Witness for C9 at the environment `dev`. -/
theorem GetDatabaseList_other_environment_witness :
    (GetDatabaseList (demoVaultEnv 200 "\x7b\x7d" (.error "eof") []) "dev" "bw" demoConfig).1
      = .ok [] ∧
    requestsOf
      (GetDatabaseList (demoVaultEnv 200 "\x7b\x7d" (.error "eof") []) "dev" "bw" demoConfig).2
      = [] :=
  GetDatabaseList_other_environment _ "dev" "bw" demoConfig (by decide)

/-! ## Connections file -/

theorem updateLoop_not_found (name u : String) (L : List DBConnections)
    (h : ∀ c ∈ L, c.Name ≠ name) : updateLoop name u L = (L, false) := by
  induction L with
  | nil => rfl
  | cons c rest ih =>
    have hc : c.Name ≠ name := h c (List.mem_cons_self c rest)
    have hrest : ∀ x ∈ rest, x.Name ≠ name := fun x hx => h x (List.mem_cons_of_mem c hx)
    unfold updateLoop
    simp only [hc, if_false, ih hrest]

theorem updateLoop_found (name u : String) (L : List DBConnections)
    (h : ∃ c ∈ L, c.Name = name) :
    ∃ pre c post, L = pre ++ c :: post ∧ (∀ x ∈ pre, x.Name ≠ name) ∧ c.Name = name ∧
      updateLoop name u L = (pre ++ { c with URL := u } :: post, true) := by
  induction L with
  | nil =>
    rcases h with ⟨c, hc, _⟩
    cases hc
  | cons d rest ih =>
    by_cases hd : d.Name = name
    · refine ⟨[], d, rest, rfl, ?_, hd, ?_⟩
      · intro x hx; cases hx
      · unfold updateLoop
        simp only [hd, if_true, List.nil_append]
    · have hrest : ∃ c ∈ rest, c.Name = name := by
        rcases h with ⟨c, hc, hn⟩
        rcases List.mem_cons.mp hc with rfl | hc
        · exact absurd hn hd
        · exact ⟨c, hc, hn⟩
      rcases ih hrest with ⟨pre, c, post, hL, hpre, hc, hrun⟩
      refine ⟨d :: pre, c, post, ?_, ?_, hc, ?_⟩
      · rw [hL]; rfl
      · intro x hx
        rcases List.mem_cons.mp hx with rfl | hx
        · exact hd
        · exact hpre x hx
      · unfold updateLoop
        simp only [hd, if_false, hrun, List.cons_append]

/-- C10: with a connections file that reads and parses as the list `L`,
`UpdateNvimDB` marshals one list `L2` and writes exactly that to the file.
If `L` has an entry named `environment-selected`, `L2` has the length of `L`,
its first entry with that name carries the URL `u`, and every other entry is
unchanged and in place; if `L` has no such entry, `L2` is `L` followed by
one new entry with that name and URL `u`. -/
theorem UpdateNvimDB_upserts (env : VaultEnv) (nvimDBPath dbFile : String)
    (dbCredentials : VaultResponse) (environment selected u : String)
    (L : List DBConnections) (hread : env.readFile nvimDBPath = .ok dbFile)
    (hparse : env.unmarshalConnections dbFile = .ok L) :
    ∃ L2 : List DBConnections,
      (∀ data, env.marshalIndent L2 = .ok data →
        writesOf (UpdateNvimDB env nvimDBPath dbCredentials environment selected u).2 =
          [(nvimDBPath, data)] ∧
        (UpdateNvimDB env nvimDBPath dbCredentials environment selected u).1 =
          env.writeFile nvimDBPath data) ∧
      ((∃ c ∈ L, c.Name = environment ++ "-" ++ selected) →
        L2.length = L.length ∧
        ∃ pre c post, L = pre ++ c :: post ∧
          (∀ x ∈ pre, x.Name ≠ environment ++ "-" ++ selected) ∧
          c.Name = environment ++ "-" ++ selected ∧
          L2 = pre ++ { c with URL := u } :: post) ∧
      ((∀ c ∈ L, c.Name ≠ environment ++ "-" ++ selected) →
        L2 = L ++ [{ Name := environment ++ "-" ++ selected, URL := u }]) := by
  refine ⟨upsertConnection L (environment ++ "-" ++ selected) u, ?_, ?_, ?_⟩
  · intro data hdata
    unfold UpdateNvimDB
    simp only [hread, hparse, hdata]
    simp [writesOf]
  · intro hex
    rcases updateLoop_found (environment ++ "-" ++ selected) u L hex with
      ⟨pre, c, post, hL, hpre, hc, hrun⟩
    have hup : upsertConnection L (environment ++ "-" ++ selected) u =
        pre ++ { c with URL := u } :: post := by
      unfold upsertConnection
      simp only [hrun, if_true]
    refine ⟨?_, pre, c, post, hL, hpre, hc, hup⟩
    rw [hup, hL]
    simp
  · intro hnone
    unfold upsertConnection
    simp only [updateLoop_not_found _ u L hnone]
    rfl

/-- Witness for C10: the list with the one entry `dev-foo` with URL `old`,
patched for `dev`/`foo` and for `dev`/`bar` with the URL `new`. -/
theorem UpdateNvimDB_upserts_witness :
    (∃ L2 : List DBConnections,
      (∀ data, (.ok (renderConnections L2) : Except String String) = .ok data →
        writesOf (UpdateNvimDB (demoVaultEnv 200 "" (.error "eof") [⟨"old", "dev-foo"⟩])
            "/c.json" demoCredentials "dev" "foo" "new").2 = [("/c.json", data)] ∧
        (UpdateNvimDB (demoVaultEnv 200 "" (.error "eof") [⟨"old", "dev-foo"⟩])
            "/c.json" demoCredentials "dev" "foo" "new").1 = none) ∧
      ((∃ c ∈ [(⟨"old", "dev-foo"⟩ : DBConnections)], c.Name = "dev" ++ "-" ++ "foo") →
        L2.length = [(⟨"old", "dev-foo"⟩ : DBConnections)].length ∧
        ∃ pre c post, [(⟨"old", "dev-foo"⟩ : DBConnections)] = pre ++ c :: post ∧
          (∀ x ∈ pre, x.Name ≠ "dev" ++ "-" ++ "foo") ∧
          c.Name = "dev" ++ "-" ++ "foo" ∧
          L2 = pre ++ { c with URL := "new" } :: post) ∧
      ((∀ c ∈ [(⟨"old", "dev-foo"⟩ : DBConnections)], c.Name ≠ "dev" ++ "-" ++ "foo") →
        L2 = [(⟨"old", "dev-foo"⟩ : DBConnections)] ++
          [{ Name := "dev" ++ "-" ++ "foo", URL := "new" }])) ∧
    upsertConnection [⟨"old", "dev-foo"⟩] ("dev" ++ "-" ++ "foo") "new" =
      [⟨"new", "dev-foo"⟩] ∧
    upsertConnection [⟨"old", "dev-foo"⟩] ("dev" ++ "-" ++ "bar") "new" =
      [⟨"old", "dev-foo"⟩, ⟨"new", "dev-bar"⟩] ∧
    writesOf (UpdateNvimDB (demoVaultEnv 200 "" (.error "eof") [⟨"old", "dev-foo"⟩])
        "/c.json" demoCredentials "dev" "bar" "new").2 =
      [("/c.json", renderConnections [⟨"old", "dev-foo"⟩, ⟨"new", "dev-bar"⟩])] :=
  ⟨UpdateNvimDB_upserts (demoVaultEnv 200 "" (.error "eof") [⟨"old", "dev-foo"⟩])
      "/c.json" "connections" demoCredentials "dev" "foo" "new" [⟨"old", "dev-foo"⟩] rfl rfl,
   by decide, by decide, by decide⟩

/-! ## Template expansion -/

theorem fullURL_data (u p d t : String) :
    (fullURL u p d t).data = genericReplace (placeholderPairs u.data p.data d.data) 0 t.data :=
  rfl

theorem genericReplace_skip (P : List (List Char × List Char)) :
    ∀ (s : List Char) (k : Nat), genericReplace P k s = genericReplace P 0 (s.drop k) := by
  intro s
  induction s with
  | nil =>
    intro k
    cases k <;> simp [genericReplace]
  | cons c cs ih =>
    intro k
    cases k with
    | zero => rfl
    | succ k =>
      rw [List.drop_succ_cons, ← ih k]
      simp [genericReplace]

theorem placeholderPairs_key_mem {u p d : List Char} {pr : List Char × List Char}
    (h : pr ∈ placeholderPairs u p d) : pr.1 ∈ placeholderKeys := by
  simp only [placeholderPairs, List.mem_cons, List.mem_singleton, List.not_mem_nil,
    or_false] at h
  rcases h with rfl | rfl | rfl <;> simp [placeholderKeys]

theorem placeholderKeys_length {k : List Char} (h : k ∈ placeholderKeys) : k.length = 12 := by
  simp only [placeholderKeys, List.mem_cons, List.mem_singleton, List.not_mem_nil,
    or_false] at h
  rcases h with rfl | rfl | rfl <;> rfl

theorem placeholderPairs_unique {u p d : List Char} {a b : List Char × List Char}
    (ha : a ∈ placeholderPairs u p d) (hb : b ∈ placeholderPairs u p d) (h : a.1 = b.1) :
    a = b := by
  simp only [placeholderPairs, List.mem_cons, List.mem_singleton, List.not_mem_nil,
    or_false] at ha hb
  rcases ha with rfl | rfl | rfl <;> rcases hb with rfl | rfl | rfl <;>
    first
      | rfl
      | (exfalso; revert h; simp)

theorem replacerLookup_some {P : List (List Char × List Char)} {s : List Char}
    {pr : List Char × List Char} (h : replacerLookup P s false = some pr) :
    pr ∈ P ∧ pr.1 <+: s := by
  unfold replacerLookup at h
  refine ⟨List.mem_of_find?_eq_some h, ?_⟩
  have := List.find?_some h
  simp only [Bool.false_and, Bool.not_false, Bool.true_and] at this
  exact List.isPrefixOf_iff_prefix.mp this

theorem replacerLookup_none {P : List (List Char × List Char)} {s : List Char}
    (h : replacerLookup P s false = none) : ∀ pr ∈ P, ¬ pr.1 <+: s := by
  unfold replacerLookup at h
  intro pr hpr hpre
  have := List.find?_eq_none.mp h pr hpr
  simp only [Bool.false_and, Bool.not_false, Bool.true_and] at this
  exact this (List.isPrefixOf_iff_prefix.mpr hpre)

theorem genericReplace_nil (u p d : List Char) :
    genericReplace (placeholderPairs u p d) 0 [] = [] := by
  cases h : replacerLookup (placeholderPairs u p d) [] false with
  | none => simp [genericReplace, h]
  | some pr =>
    exfalso
    have ⟨hm, hp⟩ := replacerLookup_some h
    have hl := placeholderKeys_length (placeholderPairs_key_mem hm)
    have := hp.length_le
    rw [hl] at this
    simp at this

theorem genericReplace_match (u p d : List Char) (c : Char) (cs : List Char)
    (pr : List Char × List Char)
    (h : replacerLookup (placeholderPairs u p d) (c :: cs) false = some pr) :
    genericReplace (placeholderPairs u p d) 0 (c :: cs) =
      pr.2 ++ genericReplace (placeholderPairs u p d) 0 ((c :: cs).drop 12) := by
  have ⟨hm, _⟩ := replacerLookup_some h
  have hl := placeholderKeys_length (placeholderPairs_key_mem hm)
  rw [genericReplace, h]
  simp only [hl]
  rw [if_neg (by decide), genericReplace_skip]
  rfl

theorem genericReplace_copy (P : List (List Char × List Char)) (c : Char) (cs : List Char)
    (h : replacerLookup P (c :: cs) false = none) :
    genericReplace P 0 (c :: cs) = c :: genericReplace P 0 cs := by
  rw [genericReplace, h]

theorem placeholderKeys_no_overlap :
    ∀ a ∈ placeholderKeys, ∀ b ∈ placeholderKeys, ∀ n < 12, 0 < n → ¬ a.drop n <+: b := by
  decide

/-- Every occurrence of a placeholder in the template puts its value in the
output of the scan. -/
theorem genericReplace_value_mem (u p d : List Char) :
    ∀ (n : Nat) (s : List Char), s.length ≤ n →
      ∀ pr ∈ placeholderPairs u p d, pr.1 <:+: s →
        pr.2 <:+: genericReplace (placeholderPairs u p d) 0 s := by
  intro n
  induction n with
  | zero =>
    intro s hs pr hpr hin
    have hl := placeholderKeys_length (placeholderPairs_key_mem hpr)
    have := hin.length_le
    omega
  | succ n ih =>
    intro s hs pr hpr hin
    have hl := placeholderKeys_length (placeholderPairs_key_mem hpr)
    cases s with
    | nil =>
      have := hin.length_le
      rw [hl] at this
      simp at this
    | cons c cs =>
      cases hlk : replacerLookup (placeholderPairs u p d) (c :: cs) false with
      | none =>
        rw [genericReplace_copy _ c cs hlk]
        have hnp := replacerLookup_none hlk pr hpr
        rcases List.infix_cons_iff.mp hin with hp | hi
        · exact absurd hp hnp
        · have hlen : cs.length ≤ n := by simpa using hs
          exact (ih cs hlen pr hpr hi).trans (List.suffix_cons c _).isInfix
      | some q =>
        rw [genericReplace_match u p d c cs q hlk]
        have ⟨hq, hqp⟩ := replacerLookup_some hlk
        have hql := placeholderKeys_length (placeholderPairs_key_mem hq)
        obtain ⟨pre, post, hs2⟩ := hin
        by_cases h0 : pre.length = 0
        · have hpre : pre = [] := List.length_eq_zero.mp h0
          subst hpre
          have hpp : pr.1 <+: c :: cs := ⟨post, by simpa using hs2⟩
          have h1 : pr.1 <+: q.1 := List.prefix_of_prefix_length_le hpp hqp (by omega)
          have h2 : pr.1 = q.1 := h1.eq_of_length (by omega)
          have h3 : pr = q := placeholderPairs_unique hpr hq h2
          subst h3
          exact (List.prefix_append _ _).isInfix
        · by_cases h12 : 12 ≤ pre.length
          · have hdrop : (c :: cs).drop 12 = pre.drop 12 ++ pr.1 ++ post := by
              rw [← hs2, List.append_assoc, List.drop_append_of_le_length h12,
                List.append_assoc]
            have hlen : ((c :: cs).drop 12).length ≤ n := by
              simp only [List.length_drop, List.length_cons] at hs ⊢
              omega
            have hin2 : pr.1 <:+: (c :: cs).drop 12 := ⟨pre.drop 12, post, hdrop.symm⟩
            exact (ih _ hlen pr hpr hin2).trans (List.suffix_append _ _).isInfix
          · exfalso
            obtain ⟨r, hr⟩ := hqp
            have hd1 : (c :: cs).drop pre.length = pr.1 ++ post := by
              rw [← hs2, List.append_assoc, List.drop_left]
            have hd2 : (c :: cs).drop pre.length = q.1.drop pre.length ++ r := by
              rw [← hr, List.drop_append_of_le_length (by omega)]
            have hA : q.1.drop pre.length <+: pr.1 ++ post := ⟨r, by rw [← hd2, hd1]⟩
            have hB : pr.1 <+: pr.1 ++ post := List.prefix_append _ _
            have hC : q.1.drop pre.length <+: pr.1 :=
              List.prefix_of_prefix_length_le hA hB (by
                simp only [List.length_drop]; omega)
            exact placeholderKeys_no_overlap q.1 (placeholderPairs_key_mem hq) pr.1
              (placeholderPairs_key_mem hpr) pre.length (by omega) (by omega) hC

/-- The scan replaces a placeholder at the front of the input by its value
and goes on behind it. -/
theorem genericReplace_key (u p d : List Char) (pr : List Char × List Char)
    (hpr : pr ∈ placeholderPairs u p d) (rest : List Char) :
    genericReplace (placeholderPairs u p d) 0 (pr.1 ++ rest) =
      pr.2 ++ genericReplace (placeholderPairs u p d) 0 rest := by
  have hl := placeholderKeys_length (placeholderPairs_key_mem hpr)
  have hpre : pr.1 <+: pr.1 ++ rest := List.prefix_append _ _
  cases hs : pr.1 ++ rest with
  | nil =>
    have := congrArg List.length hs
    simp only [List.length_append, List.length_nil] at this
    omega
  | cons c cs =>
    rw [hs] at hpre
    cases hlk : replacerLookup (placeholderPairs u p d) (c :: cs) false with
    | none => exact absurd hpre (replacerLookup_none hlk pr hpr)
    | some q =>
      have ⟨hq, hqp⟩ := replacerLookup_some hlk
      have hql := placeholderKeys_length (placeholderPairs_key_mem hq)
      have h1 : q.1 <+: pr.1 := List.prefix_of_prefix_length_le hqp hpre (by omega)
      have h2 : q.1 = pr.1 := h1.eq_of_length (by omega)
      have h3 : q = pr := placeholderPairs_unique hq hpr h2
      subst h3
      rw [genericReplace_match u p d c cs q hlk, ← hs, ← hl, List.drop_left]

theorem placeholderKeys_head {k : List Char} (h : k ∈ placeholderKeys) :
    ∃ k2, k = openBrace :: k2 := by
  simp only [placeholderKeys, List.mem_cons, List.mem_singleton, List.not_mem_nil,
    or_false] at h
  rcases h with rfl | rfl | rfl <;> exact ⟨_, rfl⟩

theorem canonical_lit {c : Char} {qs : List Piece} (h : canonical (.lit c :: qs) = true) :
    (∀ k ∈ placeholderKeys, ¬ k <+: c :: templateText qs) ∧ canonical qs = true := by
  simp only [canonical, Bool.and_eq_true, List.all_eq_true, Bool.not_eq_true'] at h
  refine ⟨?_, h.2⟩
  intro k hk hp
  have := h.1 k hk
  rw [List.isPrefixOf_iff_prefix.mpr hp] at this
  cases this

/-- The scan on a canonical reading of the template: every placeholder piece
is replaced by its value and every literal piece is copied. -/
theorem genericReplace_pieces (u p d : List Char) :
    ∀ ps : List Piece, canonical ps = true →
      genericReplace (placeholderPairs u p d) 0 (templateText ps) = expandPieces u p d ps := by
  intro ps
  induction ps with
  | nil => intro _; exact genericReplace_nil u p d
  | cons q qs ih =>
    intro hc
    cases q with
    | lit c =>
      have ⟨hk, hqs⟩ := canonical_lit hc
      have hlk : replacerLookup (placeholderPairs u p d) (c :: templateText qs) false = none := by
        cases hl : replacerLookup (placeholderPairs u p d) (c :: templateText qs) false with
        | none => rfl
        | some pr =>
          have ⟨hm, hp⟩ := replacerLookup_some hl
          exact absurd hp (hk pr.1 (placeholderPairs_key_mem hm))
      show genericReplace _ 0 (c :: templateText qs) = c :: expandPieces u p d qs
      rw [genericReplace_copy _ c _ hlk, ih hqs]
    | username =>
      have hqs : canonical qs = true := hc
      have := genericReplace_key u p d (Piece.username.source, u)
        (List.mem_cons_self _ _) (templateText qs)
      show genericReplace _ 0 (_ ++ templateText qs) = u ++ expandPieces u p d qs
      rw [← ih hqs]
      exact this
    | password =>
      have hqs : canonical qs = true := hc
      have := genericReplace_key u p d (Piece.password.source, p)
        (List.mem_cons_of_mem _ (List.mem_cons_self _ _)) (templateText qs)
      show genericReplace _ 0 (_ ++ templateText qs) = p ++ expandPieces u p d qs
      rw [← ih hqs]
      exact this
    | database =>
      have hqs : canonical qs = true := hc
      have := genericReplace_key u p d (Piece.database.source, d)
        (List.mem_cons_of_mem _ (List.mem_cons_of_mem _ (List.mem_cons_self _ _)))
        (templateText qs)
      show genericReplace _ 0 (_ ++ templateText qs) = d ++ expandPieces u p d qs
      rw [← ih hqs]
      exact this

/-- C6 (counterexample): the expansion can contain a placeholder token. With
the template of the three placeholders in a row and the username
`\x7b\x7bdatabase\x7d\x7d` the output starts with that token, since substituted text is
not scanned again; and with braces around a placeholder in the template and
the plain username `base` the output holds a token made of template text and
value. -/
theorem fullURL_placeholder_survives :
    (Contains "\x7b\x7busername\x7d\x7d\x7b\x7bpassword\x7d\x7d\x7b\x7bdatabase\x7d\x7d"
        "\x7b\x7busername\x7d\x7d" ∧
      Contains "\x7b\x7busername\x7d\x7d\x7b\x7bpassword\x7d\x7d\x7b\x7bdatabase\x7d\x7d"
        "\x7b\x7bpassword\x7d\x7d" ∧
      Contains "\x7b\x7busername\x7d\x7d\x7b\x7bpassword\x7d\x7d\x7b\x7bdatabase\x7d\x7d"
        "\x7b\x7bdatabase\x7d\x7d" ∧
      fullURL "\x7b\x7bdatabase\x7d\x7d" "pw" "orders"
          "\x7b\x7busername\x7d\x7d\x7b\x7bpassword\x7d\x7d\x7b\x7bdatabase\x7d\x7d" =
        "\x7b\x7bdatabase\x7d\x7dpworders" ∧
      Contains (fullURL "\x7b\x7bdatabase\x7d\x7d" "pw" "orders"
          "\x7b\x7busername\x7d\x7d\x7b\x7bpassword\x7d\x7d\x7b\x7bdatabase\x7d\x7d")
        "\x7b\x7bdatabase\x7d\x7d") ∧
    (Contains "\x7b\x7bdata\x7b\x7busername\x7d\x7d\x7d\x7d\x7b\x7bpassword\x7d\x7d\x7b\x7bdatabase\x7d\x7d"
        "\x7b\x7busername\x7d\x7d" ∧
      Contains "\x7b\x7bdata\x7b\x7busername\x7d\x7d\x7d\x7d\x7b\x7bpassword\x7d\x7d\x7b\x7bdatabase\x7d\x7d"
        "\x7b\x7bpassword\x7d\x7d" ∧
      Contains "\x7b\x7bdata\x7b\x7busername\x7d\x7d\x7d\x7d\x7b\x7bpassword\x7d\x7d\x7b\x7bdatabase\x7d\x7d"
        "\x7b\x7bdatabase\x7d\x7d" ∧
      fullURL "base" "pw" "orders"
          "\x7b\x7bdata\x7b\x7busername\x7d\x7d\x7d\x7d\x7b\x7bpassword\x7d\x7d\x7b\x7bdatabase\x7d\x7d" =
        "\x7b\x7bdatabase\x7d\x7dpworders" ∧
      Contains (fullURL "base" "pw" "orders"
          "\x7b\x7bdata\x7b\x7busername\x7d\x7d\x7d\x7d\x7b\x7bpassword\x7d\x7d\x7b\x7bdatabase\x7d\x7d")
        "\x7b\x7bdatabase\x7d\x7d") := by
  decide

/-- Every template has a canonical reading. -/
theorem canonical_exists :
    ∀ (n : Nat) (t : List Char), t.length ≤ n →
      ∃ ps, canonical ps = true ∧ t = templateText ps := by
  intro n
  induction n with
  | zero =>
    intro t ht
    have : t = [] := List.length_eq_zero.mp (by omega)
    subst this
    exact ⟨[], rfl, rfl⟩
  | succ n ih =>
    intro t ht
    cases t with
    | nil => exact ⟨[], rfl, rfl⟩
    | cons c cs =>
      by_cases hk : ∃ k ∈ placeholderKeys, k <+: c :: cs
      · obtain ⟨k, hk, r, hr⟩ := hk
        have hl := placeholderKeys_length hk
        have hrl : r.length ≤ n := by
          have := congrArg List.length hr
          simp only [List.length_append, List.length_cons] at this ht
          omega
        obtain ⟨ps, hps, hr2⟩ := ih r hrl
        simp only [placeholderKeys, List.mem_cons, List.mem_singleton, List.not_mem_nil,
          or_false] at hk
        rcases hk with rfl | rfl | rfl
        · exact ⟨.username :: ps, hps, by rw [← hr, hr2]; rfl⟩
        · exact ⟨.password :: ps, hps, by rw [← hr, hr2]; rfl⟩
        · exact ⟨.database :: ps, hps, by rw [← hr, hr2]; rfl⟩
      · obtain ⟨ps, hps, hcs⟩ := ih cs (by simpa using ht)
        refine ⟨.lit c :: ps, ?_, by rw [hcs]; rfl⟩
        simp only [canonical, Bool.and_eq_true, List.all_eq_true, Bool.not_eq_true', hps,
          and_true]
        intro k hkm
        rw [← hcs]
        by_contra hp
        simp only [Bool.not_eq_false] at hp
        exact hk ⟨k, hkm, List.isPrefixOf_iff_prefix.mp hp⟩

/-- A reading whose literal pieces are no opening braces is canonical. -/
theorem canonical_of_no_brace :
    ∀ ps : List Piece, (∀ q ∈ ps, q ≠ Piece.lit openBrace) → canonical ps = true := by
  intro ps
  induction ps with
  | nil => intro _; rfl
  | cons q qs ih =>
    intro h
    have hqs : canonical qs = true := ih (fun x hx => h x (List.mem_cons_of_mem _ hx))
    cases q with
    | lit c =>
      have hc : c ≠ openBrace := fun e => h (.lit c) (List.mem_cons_self _ _) (by rw [e])
      simp only [canonical, Bool.and_eq_true, List.all_eq_true, Bool.not_eq_true', hqs,
        and_true]
      intro k hk
      by_contra hp
      simp only [Bool.not_eq_false] at hp
      obtain ⟨k2, rfl⟩ := placeholderKeys_head hk
      have := List.isPrefixOf_iff_prefix.mp hp
      rw [List.cons_prefix_cons] at this
      exact hc this.1.symm
    | username => exact hqs
    | password => exact hqs
    | database => exact hqs

/-- Without an opening brace in the values or in the literal pieces, the
expanded pieces hold no opening brace. -/
theorem expandPieces_no_brace (u p d : List Char) (hu : openBrace ∉ u) (hp : openBrace ∉ p)
    (hd : openBrace ∉ d) :
    ∀ ps : List Piece, (∀ q ∈ ps, q ≠ Piece.lit openBrace) →
      openBrace ∉ expandPieces u p d ps := by
  intro ps
  induction ps with
  | nil => intro _ h; cases h
  | cons q qs ih =>
    intro h hin
    have hqs := ih (fun x hx => h x (List.mem_cons_of_mem _ hx))
    rcases List.mem_append.mp hin with hq | hq
    · cases q with
      | lit c =>
        have hc : openBrace = c := by simpa [Piece.expand] using hq
        exact h (.lit c) (List.mem_cons_self _ _) (by rw [hc])
      | username => exact hu hq
      | password => exact hp hq
      | database => exact hd hq
    · exact hqs hq

/-- C6 (amended): for a template that contains all three placeholders, the
expansion contains the username, the password and the database name. Every
occurrence of a placeholder is replaced: the template has a canonical reading
as pieces (placeholders, and literal code points at which no placeholder
starts), and on every such reading the expansion is the pieces with each
placeholder replaced by its value and each literal copied. Hence, when the
template is spelled by placeholders and code points other than the opening
brace, and no value contains an opening brace, the expansion contains none
of the three placeholder tokens. -/
theorem fullURL_expands (t u p d : String)
    (hU : Contains t "\x7b\x7busername\x7d\x7d")
    (hP : Contains t "\x7b\x7bpassword\x7d\x7d")
    (hD : Contains t "\x7b\x7bdatabase\x7d\x7d") :
    (Contains (fullURL u p d t) u ∧ Contains (fullURL u p d t) p ∧
      Contains (fullURL u p d t) d) ∧
    (∃ ps, canonical ps = true ∧ t.data = templateText ps) ∧
    (∀ ps, canonical ps = true → t.data = templateText ps →
      (fullURL u p d t).data = expandPieces u.data p.data d.data ps) ∧
    (∀ ps, t.data = templateText ps → (∀ q ∈ ps, q ≠ Piece.lit openBrace) →
      openBrace ∉ u.data → openBrace ∉ p.data → openBrace ∉ d.data →
      ¬ Contains (fullURL u p d t) "\x7b\x7busername\x7d\x7d" ∧
      ¬ Contains (fullURL u p d t) "\x7b\x7bpassword\x7d\x7d" ∧
      ¬ Contains (fullURL u p d t) "\x7b\x7bdatabase\x7d\x7d") := by
  unfold Contains at *
  simp only [fullURL_data] at *
  have hval := genericReplace_value_mem u.data p.data d.data t.data.length t.data (le_refl _)
  refine ⟨⟨?_, ?_, ?_⟩, ?_, ?_, ?_⟩
  · exact hval (_, u.data) (by simp [placeholderPairs]) hU
  · exact hval (_, p.data) (by simp [placeholderPairs]) hP
  · exact hval (_, d.data) (by simp [placeholderPairs]) hD
  · exact canonical_exists t.data.length t.data (le_refl _)
  · intro ps hc ht
    rw [ht]
    exact genericReplace_pieces u.data p.data d.data ps hc
  · intro ps ht hlit hu hp hd
    have hnone : openBrace ∉ genericReplace (placeholderPairs u.data p.data d.data) 0 t.data := by
      rw [ht, genericReplace_pieces u.data p.data d.data ps (canonical_of_no_brace ps hlit)]
      exact expandPieces_no_brace u.data p.data d.data hu hp hd ps hlit
    refine ⟨?_, ?_, ?_⟩ <;>
      · intro hin
        exact hnone (hin.subset (by decide))

/-- Witness for C6 (amended): a PostgreSQL URL template read as `demoPieces`;
and a template in which a placeholder occurs twice. -/
theorem fullURL_expands_witness :
    fullURL "app" "secret" "orders"
        "postgres://\x7b\x7busername\x7d\x7d:\x7b\x7bpassword\x7d\x7d@db:5432/\x7b\x7bdatabase\x7d\x7d" =
      "postgres://app:secret@db:5432/orders" ∧
    (Contains (fullURL "app" "secret" "orders"
        "postgres://\x7b\x7busername\x7d\x7d:\x7b\x7bpassword\x7d\x7d@db:5432/\x7b\x7bdatabase\x7d\x7d") "app" ∧
      Contains (fullURL "app" "secret" "orders"
        "postgres://\x7b\x7busername\x7d\x7d:\x7b\x7bpassword\x7d\x7d@db:5432/\x7b\x7bdatabase\x7d\x7d") "secret" ∧
      Contains (fullURL "app" "secret" "orders"
        "postgres://\x7b\x7busername\x7d\x7d:\x7b\x7bpassword\x7d\x7d@db:5432/\x7b\x7bdatabase\x7d\x7d") "orders") ∧
    (fullURL "app" "secret" "orders"
        "postgres://\x7b\x7busername\x7d\x7d:\x7b\x7bpassword\x7d\x7d@db:5432/\x7b\x7bdatabase\x7d\x7d").data =
      expandPieces ("app" : String).data ("secret" : String).data ("orders" : String).data
        demoPieces ∧
    (¬ Contains (fullURL "app" "secret" "orders"
        "postgres://\x7b\x7busername\x7d\x7d:\x7b\x7bpassword\x7d\x7d@db:5432/\x7b\x7bdatabase\x7d\x7d")
        "\x7b\x7busername\x7d\x7d" ∧
      ¬ Contains (fullURL "app" "secret" "orders"
        "postgres://\x7b\x7busername\x7d\x7d:\x7b\x7bpassword\x7d\x7d@db:5432/\x7b\x7bdatabase\x7d\x7d")
        "\x7b\x7bpassword\x7d\x7d" ∧
      ¬ Contains (fullURL "app" "secret" "orders"
        "postgres://\x7b\x7busername\x7d\x7d:\x7b\x7bpassword\x7d\x7d@db:5432/\x7b\x7bdatabase\x7d\x7d")
        "\x7b\x7bdatabase\x7d\x7d") ∧
    fullURL "app" "secret" "orders"
        "\x7b\x7busername\x7d\x7d@\x7b\x7busername\x7d\x7d:\x7b\x7bpassword\x7d\x7d/\x7b\x7bdatabase\x7d\x7d" =
      "app@app:secret/orders" :=
  ⟨by decide,
   (fullURL_expands
      "postgres://\x7b\x7busername\x7d\x7d:\x7b\x7bpassword\x7d\x7d@db:5432/\x7b\x7bdatabase\x7d\x7d"
      "app" "secret" "orders" (by decide) (by decide) (by decide)).1,
   (fullURL_expands
      "postgres://\x7b\x7busername\x7d\x7d:\x7b\x7bpassword\x7d\x7d@db:5432/\x7b\x7bdatabase\x7d\x7d"
      "app" "secret" "orders" (by decide) (by decide) (by decide)).2.2.1
      demoPieces (by decide) (by decide),
   (fullURL_expands
      "postgres://\x7b\x7busername\x7d\x7d:\x7b\x7bpassword\x7d\x7d@db:5432/\x7b\x7bdatabase\x7d\x7d"
      "app" "secret" "orders" (by decide) (by decide) (by decide)).2.2.2
      demoPieces (by decide) (by decide) (by decide) (by decide) (by decide),
   by decide⟩

/-! ## Session cache round trip -/

theorem trim_dropWhile (l : List Char) :
    List.dropWhile isSpace (List.rdropWhile isSpace (List.dropWhile isSpace l)) =
      List.rdropWhile isSpace (List.dropWhile isSpace l) := by
  generalize hm : List.rdropWhile isSpace (List.dropWhile isSpace l) = m
  cases m with
  | nil => rfl
  | cons x xs =>
    have hpre : (x :: xs) <+: List.dropWhile isSpace l := by
      rw [← hm]; exact List.rdropWhile_prefix isSpace _
    obtain ⟨r, hr⟩ := hpre
    have hx := List.head?_dropWhile_not isSpace l
    rw [← hr] at hx
    simp only [List.cons_append, List.head?_cons] at hx
    simp [List.dropWhile, hx]

theorem rdropWhile_concat_self {m : List Char} {x : Char}
    (h : List.rdropWhile isSpace (m ++ [x]) = m ++ [x]) : isSpace x = false := by
  by_contra hx
  simp only [Bool.not_eq_false] at hx
  rw [List.rdropWhile_concat_pos isSpace m x hx] at h
  have := (List.rdropWhile_prefix isSpace m).length_le
  rw [h] at this
  simp at this

theorem trim_session_line (m : List Char) (h2 : List.rdropWhile isSpace m = m) :
    List.rdropWhile isSpace
        (List.dropWhile isSpace (("BW_SESSION=" : String).data ++ m ++ ("\n" : String).data)) =
      ("BW_SESSION=" : String).data ++ m := by
  have hhead : List.dropWhile isSpace
      (("BW_SESSION=" : String).data ++ m ++ ("\n" : String).data) =
      ("BW_SESSION=" : String).data ++ m ++ ("\n" : String).data := by
    have hB : ("BW_SESSION=" : String).data ++ m ++ ("\n" : String).data =
        Char.ofNat 66 :: (("W_SESSION=" : String).data ++ m ++ ("\n" : String).data) := rfl
    have hsp : ¬ isSpace (Char.ofNat 66) = true := by decide
    rw [hB]
    exact List.dropWhile_cons_of_neg hsp
  have hnl : ("\n" : String).data = [Char.ofNat 10] := rfl
  have hsnl : isSpace (Char.ofNat 10) = true := by decide
  rw [hhead, hnl, List.rdropWhile_concat_pos isSpace _ _ hsnl]
  rcases List.eq_nil_or_concat m with hm | ⟨m2, x, hm⟩
  · subst hm
    have hE : ("BW_SESSION=" : String).data =
        ("BW_SESSION" : String).data ++ [Char.ofNat 61] := rfl
    have hse : ¬ isSpace (Char.ofNat 61) = true := by decide
    rw [List.append_nil, hE]
    exact List.rdropWhile_concat_neg isSpace _ _ hse
  · rw [List.concat_eq_append] at hm
    subst hm
    have hx : ¬ isSpace x = true := by
      rw [rdropWhile_concat_self h2]; simp
    rw [← List.append_assoc]
    exact List.rdropWhile_concat_neg isSpace _ _ hx

theorem TrimSpace_data (s : String) :
    (TrimSpace s).data = List.rdropWhile isSpace (List.dropWhile isSpace s.data) :=
  rfl

/-- The parse of `readBWSession` undoes the line of `writeBWSession` on every
token that `TrimSpace` produces. -/
theorem parseSession_sessionFileContent (out : String) :
    parseSession (sessionFileContent (TrimSpace out)) = TrimSpace out := by
  have h1 := trim_dropWhile out.data
  have h2 : List.rdropWhile isSpace (TrimSpace out).data = (TrimSpace out).data :=
    List.rdropWhile_idempotent isSpace _
  rw [← TrimSpace_data] at h1
  generalize TrimSpace out = t at h1 h2
  have hline : TrimSpace (sessionFileContent t) = "BW_SESSION=" ++ t := by
    apply String.ext
    rw [TrimSpace_data]
    simp only [sessionFileContent, String.data_append]
    exact trim_session_line t.data h2
  have hpre : HasPrefix ("BW_SESSION=" ++ t) "BW_SESSION=" = true := by
    unfold HasPrefix
    rw [String.data_append]
    exact List.isPrefixOf_iff_prefix.mpr (List.prefix_append _ _)
  have hrest : TrimPrefix ("BW_SESSION=" ++ t) "BW_SESSION=" = t := by
    unfold TrimPrefix
    rw [if_pos hpre]
    apply String.ext
    simp only [String.data_append]
    exact List.drop_left _ _
  have hself : TrimSpace t = t := by
    apply String.ext
    rw [TrimSpace_data, h1, h2]
  unfold parseSession
  simp only [hline, hpre, if_true, hrest, hself]

/-- C11: session-cache round trip. For every token `t` that `unlockRaw`
returns, `writeBWSession` (when the cache directory is there) writes the file
content `BW_SESSION=` followed by `t` and a newline, and `readBWSession`, in
any world whose cache file holds that content, returns exactly `t`. -/
theorem session_cache_round_trip (env : BWEnv) (t : String)
    (hunlock : (unlockRaw env).1 = .ok t) :
    (∀ home, env.userHomeDir = .ok home → env.mkdirAll (env.join home ".cache") = none →
      (writeBWSession env t).2 =
        [.mkdirAll (env.join home ".cache") 0o700,
         .writeFile (env.join (env.join home ".cache") ".bw_session")
           ("BW_SESSION=" ++ t ++ "\n") 0o600]) ∧
    (∀ (later : BWEnv) (home : String), later.userHomeDir = .ok home →
      later.readFile (later.join (later.join home ".cache") ".bw_session") =
        .ok ("BW_SESSION=" ++ t ++ "\n") →
      (readBWSession later).1 = .ok t) := by
  have htrim : ∃ out, t = TrimSpace out := by
    unfold unlockRaw at hunlock
    split at hunlock
    · cases hunlock
    · rename_i out _
      refine ⟨out, ?_⟩
      simp only [Except.ok.injEq] at hunlock
      exact hunlock.symm
  obtain ⟨out, rfl⟩ := htrim
  constructor
  · intro home hhome hmk
    unfold writeBWSession getCacheDir
    simp only [hhome, hmk]
    rfl
  · intro later home hhome hfile
    unfold readBWSession getCacheDir
    simp only [hhome, hfile]
    have := parseSession_sessionFileContent out
    unfold sessionFileContent at this
    rw [this]

/-- Witness for C11: unlock prints `tok` with white space around it, the
token is `tok`, and the cache file written for it reads back as `tok`; the
line written for the empty token parses to the empty token. -/
theorem session_cache_round_trip_witness :
    (unlockRaw roundTripEnv).1 = .ok "tok" ∧
    (writeBWSession roundTripEnv "tok").2 =
      [.mkdirAll "/home/u/.cache" 0o700,
       .writeFile "/home/u/.cache/.bw_session" "BW_SESSION=tok\n" 0o600] ∧
    (readBWSession roundTripEnv).1 = .ok "tok" ∧
    parseSession (sessionFileContent "") = "" :=
  ⟨rfl,
   (session_cache_round_trip roundTripEnv "tok" rfl).1 "/home/u" rfl rfl,
   (session_cache_round_trip roundTripEnv "tok" rfl).2 roundTripEnv "/home/u" rfl rfl,
   by decide⟩

end DBVault
